import Mathlib

/-!
Verification of the forums-scraper entity extraction and reconciliation layer.

The definitions below are a shallow embedding of
`forums_scraper/pipelines/database.py` (the `SQLitePipeline` class and its
`_save_*` helpers together with the SQLite behaviour they rely on),
`forums_scraper/base_spider.py` and `forums_scraper/spiders/wiara.py`
(URL identifier extraction, pagination-link extraction, post-row parsing).

SQLite behaviour is modelled as it acts on the schema created by
`SQLitePipeline._create_tables` under `PRAGMA foreign_keys = ON`:

* every attempted INSERT into a table with an AUTOINCREMENT key consumes a
  fresh sequence number, whether or not the row is kept;
* `INSERT OR IGNORE` silently skips a row violating a NOT NULL or UNIQUE
  constraint, but a FOREIGN KEY violation is not covered by the conflict
  clause and raises `IntegrityError`;
* `INSERT OR REPLACE` deletes every row that conflicts on a UNIQUE
  constraint (NULL values never conflict) and inserts the new row under a
  fresh id;
* `cursor.lastrowid` after executing an INSERT statement reflects the
  connection-wide rowid of the most recent successfully inserted row
  (0, hence falsy, when the connection has inserted nothing), so an ignored
  insert leaves the previous value visible;
* INTEGER-affinity columns convert digit strings to integers on storage.
-/

namespace ForumsScraper

/-- A Python value as the pipeline binds it to an SQL parameter:
`None`, `int`, or `str` (no other kinds are ever passed). -/
inductive PyVal where
  | none
  | int (n : Int)
  | str (s : String)
deriving DecidableEq, Repr

/-- Python truthiness of the values above. -/
def PyVal.truthy : PyVal → Bool
  | .none => false
  | .int n => n != 0
  | .str s => s != ""

/-- Python `a or b` on such values. -/
def pyOr (a b : PyVal) : PyVal := if a.truthy then a else b

/-- Python `str(v)` for the values the pipeline converts to cache keys. -/
def PyVal.pyStr : PyVal → String
  | .none => "None"
  | .int n => toString n
  | .str s => s

/-- Python `s.isdigit()` for ASCII text. -/
def strIsDigit (s : String) : Bool := s != "" && s.toList.all Char.isDigit

/-- Python `int(s)` on an all-digit string (every call site checks the
digits first), computed digit by digit. -/
def digitStrToNat (s : String) : Nat :=
  s.toList.foldl (fun a c => a * 10 + (c.toNat - 48)) 0

/-- SQLite INTEGER-column affinity: integer-looking text is stored as an
integer, everything else is stored as given. -/
def intAffinity : PyVal → PyVal
  | .str s => if strIsDigit s then .int (digitStrToNat s) else .str s
  | v => v

/-- SQL equality between stored values: NULL is equal to nothing (not even
itself) and values of different storage classes never compare equal. -/
def sqlEq : PyVal → PyVal → Bool
  | .int a, .int b => a == b
  | .str a, .str b => a == b
  | _, _ => false

/-- A row of the `forums` table. -/
structure ForumRow where
  id : Nat
  spider_name : PyVal
  title : PyVal
  created_at : PyVal
  updated_at : PyVal
deriving DecidableEq, Repr

/-- A row of the `sections` table (`url TEXT UNIQUE`). -/
structure SectionRow where
  id : Nat
  forum_id : PyVal
  title : PyVal
  url : PyVal
  created_at : PyVal
  updated_at : PyVal
deriving DecidableEq, Repr

/-- A row of the `threads` table (`section_id INTEGER NOT NULL` with a
foreign key into `sections`, `url TEXT UNIQUE`). -/
structure ThreadRow where
  id : Nat
  section_id : PyVal
  title : PyVal
  url : PyVal
  author : PyVal
  replies : PyVal
  views : PyVal
  last_post_date : PyVal
  last_post_author : PyVal
  created_at : PyVal
  updated_at : PyVal
deriving DecidableEq, Repr

/-- A row of the `users` table (`username TEXT UNIQUE`). -/
structure UserRow where
  id : Nat
  username : PyVal
  join_date : PyVal
  posts_count : PyVal
  religion : PyVal
  gender : PyVal
  localization : PyVal
  created_at : PyVal
  updated_at : PyVal
deriving DecidableEq, Repr

/-- A row of the `posts` table (`UNIQUE (thread_id, post_number)`, foreign
keys to threads and users deliberately omitted in the schema). -/
structure PostRow where
  id : Nat
  thread_id : PyVal
  user_id : PyVal
  post_number : PyVal
  content : PyVal
  content_urls : PyVal
  post_date : PyVal
  url : PyVal
  username : PyVal
  created_at : PyVal
  updated_at : PyVal
deriving DecidableEq, Repr

/-- The SQLite database reached through the pipeline's single connection,
with the per-table AUTOINCREMENT sequences and the connection-wide
`sqlite3_last_insert_rowid` value (0 when nothing was inserted yet). -/
structure DB where
  forums : List ForumRow := []
  sections : List SectionRow := []
  threads : List ThreadRow := []
  users : List UserRow := []
  posts : List PostRow := []
  forumsSeq : Nat := 0
  sectionsSeq : Nat := 0
  threadsSeq : Nat := 0
  usersSeq : Nat := 0
  postsSeq : Nat := 0
  lastInsertRowid : Nat := 0
deriving DecidableEq, Repr

/-- One of the in-memory id caches (`Dict[str, int]`). -/
abbrev Cache := List (String × Nat)

/-- `cache.get(k)`. -/
def cacheGet (c : Cache) (k : String) : Option Nat :=
  (c.find? (fun p => p.1 == k)).map (·.2)

/-- `cache[k] = v`. -/
def cacheSet (c : Cache) (k : String) (v : Nat) : Cache :=
  (k, v) :: c.filter (fun p => p.1 != k)

/-- The `SQLitePipeline` state: the database plus the five lookup caches. -/
structure Pipeline where
  db : DB := {}
  forum_url_to_id : Cache := []
  forum_name_to_id : Cache := []
  section_url_to_id : Cache := []
  thread_url_to_id : Cache := []
  user_name_to_id : Cache := []
deriving DecidableEq, Repr

/-- `ForumItem` as `_save_forum` reads it (unset fields read back as None). -/
structure ForumItem where
  spider_name : PyVal := .none
  title : PyVal := .none
  url : PyVal := .none
  created_at : PyVal := .none
  updated_at : PyVal := .none
deriving DecidableEq, Repr

/-- `ForumSectionItem` as `_save_section` reads it. -/
structure SectionItem where
  forum_id : PyVal := .none
  title : PyVal := .none
  url : PyVal := .none
  created_at : PyVal := .none
  updated_at : PyVal := .none
deriving DecidableEq, Repr

/-- `ForumThreadItem` as `_save_thread` reads it. -/
structure ThreadItem where
  section_id : PyVal := .none
  section_url : PyVal := .none
  section_title : PyVal := .none
  title : PyVal := .none
  url : PyVal := .none
  author : PyVal := .none
  replies : PyVal := .none
  views : PyVal := .none
  last_post_date : PyVal := .none
  last_post_author : PyVal := .none
  created_at : PyVal := .none
  updated_at : PyVal := .none
deriving DecidableEq, Repr

/-- `ForumUserItem` as `_save_user` reads it. -/
structure UserItem where
  username : PyVal := .none
  join_date : PyVal := .none
  posts_count : PyVal := .none
  religion : PyVal := .none
  gender : PyVal := .none
  localization : PyVal := .none
  created_at : PyVal := .none
  updated_at : PyVal := .none
deriving DecidableEq, Repr

/-- `ForumPostItem` as `_save_post` reads it; `content_urls` is a Python
list (or None), JSON-serialised on storage. -/
structure PostItem where
  thread_id : PyVal := .none
  user_id : PyVal := .none
  post_number : PyVal := .none
  content : PyVal := .none
  content_urls : Option (List String) := Option.none
  post_date : PyVal := .none
  url : PyVal := .none
  username : PyVal := .none
  created_at : PyVal := .none
  updated_at : PyVal := .none
deriving DecidableEq, Repr

/-- What one `_save_*` call produced: the id its local variable ended up
holding, or the `sqlite3.IntegrityError` it raised. -/
inductive Outcome where
  | ok (id : Option Nat)
  | err
deriving DecidableEq, Repr

/-- `json.dumps` string escaping (quote and backslash; the posts under
analysis carry no control characters). -/
def jsonEscape (s : String) : String :=
  s.toList.foldl
    (fun acc c =>
      if c = '\\' then acc ++ "\\\\"
      else if c = '"' then acc ++ "\\\""
      else acc.push c)
    ""

/-- `json.dumps(list, ensure_ascii=False)` for a list of strings. -/
def jsonDumpsList (l : List String) : String :=
  "[" ++ String.intercalate ", " (l.map (fun s => "\"" ++ jsonEscape s ++ "\"")) ++ "]"

/-- `SQLitePipeline._save_forum`: a plain INSERT into `forums`, which raises
only when `spider_name` is NULL (`spider_name TEXT NOT NULL`); afterwards the
spider-name and URL caches are primed. -/
def saveForum (now : String) (item : ForumItem) (s : Pipeline) : Pipeline × Outcome :=
  if item.spider_name = PyVal.none then (s, .err)
  else
    let fid := s.db.forumsSeq + 1
    let row : ForumRow :=
      { id := fid
        spider_name := item.spider_name
        title := item.title
        created_at := pyOr item.created_at (.str now)
        updated_at := pyOr item.updated_at (.str now) }
    let s1 := { s with db := { s.db with
        forums := s.db.forums ++ [row]
        forumsSeq := fid
        lastInsertRowid := fid } }
    let s2 :=
      if item.spider_name.truthy then
        { s1 with forum_name_to_id := cacheSet s1.forum_name_to_id item.spider_name.pyStr fid }
      else s1
    let s3 :=
      if item.url.truthy then
        { s2 with forum_url_to_id := cacheSet s2.forum_url_to_id item.url.pyStr fid }
      else s2
    (s3, .ok (some fid))

/-- `SQLitePipeline._save_section`: resolves a string forum reference through
the spider-name cache and then the forum-URL cache (an unresolved string
becomes NULL), performs `INSERT OR IGNORE` on the UNIQUE `url`, then computes
the section id from `cursor.lastrowid` falling back to a SELECT by url, and
finally primes the section-URL cache. -/
def saveSection (now : String) (item : SectionItem) (s : Pipeline) : Pipeline × Outcome :=
  let forumId : PyVal :=
    match item.forum_id with
    | .str k =>
      match cacheGet s.forum_name_to_id k with
      | some m => .int m
      | Option.none =>
        match cacheGet s.forum_url_to_id k with
        | some m => .int m
        | Option.none => .none
    | v => v
  let seq := s.db.sectionsSeq + 1
  let conflict := s.db.sections.any (fun r => sqlEq r.url item.url)
  let db : DB :=
    if conflict then { s.db with sectionsSeq := seq }
    else
      { s.db with
        sections := s.db.sections ++
          [{ id := seq
             forum_id := intAffinity forumId
             title := item.title
             url := item.url
             created_at := pyOr item.created_at (.str now)
             updated_at := pyOr item.updated_at (.str now) }]
        sectionsSeq := seq
        lastInsertRowid := seq }
  let sectionId : Option Nat :=
    if db.lastInsertRowid ≠ 0 then some db.lastInsertRowid
    else (db.sections.find? (fun r => sqlEq r.url item.url)).map (·.id)
  let s1 := { s with db := db }
  let s2 :=
    match sectionId with
    | some i =>
      if item.url.truthy then
        { s1 with section_url_to_id := cacheSet s1.section_url_to_id item.url.pyStr i }
      else s1
    | Option.none => s1
  (s2, .ok sectionId)

/-- The section-reference resolution phase of `SQLitePipeline._save_thread`:
when no direct `section_id` is given (falsy), the reference is resolved from
`section_url` by a SELECT, creating a minimal placeholder section (NULL
`forum_id`) on a miss and priming the section-URL cache; a string
`section_id` is mapped through the section-URL cache, kept verbatim on a
miss.  Returns the updated pipeline and the value bound as `section_id`. -/
def resolveThreadSection (now : String) (item : ThreadItem) (s : Pipeline) :
    Pipeline × PyVal :=
  if ¬ item.section_id.truthy then
    if item.section_url.truthy then
      match s.db.sections.find? (fun r => sqlEq r.url item.section_url) with
      | some r =>
        ({ s with section_url_to_id := cacheSet s.section_url_to_id item.section_url.pyStr r.id },
         .int r.id)
      | Option.none =>
        let seq := s.db.sectionsSeq + 1
        let row : SectionRow :=
          { id := seq
            forum_id := .none
            title := item.section_title
            url := item.section_url
            created_at := pyOr item.created_at (.str now)
            updated_at := pyOr item.updated_at (.str now) }
        let s1 := { s with db := { s.db with
            sections := s.db.sections ++ [row]
            sectionsSeq := seq
            lastInsertRowid := seq } }
        ({ s1 with section_url_to_id := cacheSet s1.section_url_to_id item.section_url.pyStr seq },
         .int seq)
    else
      (s, item.section_id)
  else
    match item.section_id with
    | .str k =>
      match cacheGet s.section_url_to_id k with
      | some m => (s, .int m)
      | Option.none => (s, .str k)
    | v => (s, v)

/-- The insert phase of `SQLitePipeline._save_thread`, given the resolved
pipeline state and the stored (INTEGER-affinity) section id.  The insert is
`INSERT OR IGNORE`: a NULL `section_id` (NOT NULL column) or a duplicate
`url` skips the row silently, while a non-NULL `section_id` matching no
section row violates the FOREIGN KEY constraint, which `OR IGNORE` does not
cover, and raises.  The thread id then comes from `cursor.lastrowid` with a
SELECT-by-url fallback, and primes the thread-URL cache. -/
def insertThread (now : String) (item : ThreadItem) (s1 : Pipeline) (sid : PyVal) :
    Pipeline × Outcome :=
  let seq := s1.db.threadsSeq + 1
  let urlConflict := s1.db.threads.any (fun r => sqlEq r.url item.url)
  let finish : DB → Pipeline × Outcome := fun db =>
    let threadId : Option Nat :=
      if db.lastInsertRowid ≠ 0 then some db.lastInsertRowid
      else (db.threads.find? (fun r => sqlEq r.url item.url)).map (·.id)
    let s2 := { s1 with db := db }
    let s3 :=
      match threadId with
      | some i =>
        if item.url.truthy then
          { s2 with thread_url_to_id := cacheSet s2.thread_url_to_id item.url.pyStr i }
        else s2
      | Option.none => s2
    (s3, .ok threadId)
  if sid = PyVal.none ∨ urlConflict then
    finish { s1.db with threadsSeq := seq }
  else if ¬ s1.db.sections.any (fun r => sid == PyVal.int r.id) then
    ({ s1 with db := { s1.db with threadsSeq := seq } }, .err)
  else
    finish
      { s1.db with
        threads := s1.db.threads ++
          [{ id := seq
             section_id := sid
             title := item.title
             url := item.url
             author := item.author
             replies := intAffinity item.replies
             views := intAffinity item.views
             last_post_date := item.last_post_date
             last_post_author := item.last_post_author
             created_at := pyOr item.created_at (.str now)
             updated_at := pyOr item.updated_at (.str now) }]
        threadsSeq := seq
        lastInsertRowid := seq }

/-- `SQLitePipeline._save_thread`: section resolution followed by the
`INSERT OR IGNORE` of the thread row. -/
def saveThread (now : String) (item : ThreadItem) (s : Pipeline) : Pipeline × Outcome :=
  let resolved := resolveThreadSection now item s
  insertThread now item resolved.1 (intAffinity resolved.2)

/-- `SQLitePipeline._save_user`: `INSERT OR IGNORE` on the UNIQUE
`username`, then the user id from `cursor.lastrowid` with a SELECT fallback,
then the username cache update. -/
def saveUser (now : String) (item : UserItem) (s : Pipeline) : Pipeline × Outcome :=
  let seq := s.db.usersSeq + 1
  let conflict := s.db.users.any (fun r => sqlEq r.username item.username)
  let db : DB :=
    if conflict then { s.db with usersSeq := seq }
    else
      { s.db with
        users := s.db.users ++
          [{ id := seq
             username := item.username
             join_date := item.join_date
             posts_count := intAffinity item.posts_count
             religion := item.religion
             gender := item.gender
             localization := item.localization
             created_at := pyOr item.created_at (.str now)
             updated_at := pyOr item.updated_at (.str now) }]
        usersSeq := seq
        lastInsertRowid := seq }
  let userId : Option Nat :=
    if db.lastInsertRowid ≠ 0 then some db.lastInsertRowid
    else (db.users.find? (fun r => sqlEq r.username item.username)).map (·.id)
  let s1 := { s with db := db }
  let s2 :=
    match userId with
    | some i =>
      if item.username.truthy then
        { s1 with user_name_to_id := cacheSet s1.user_name_to_id item.username.pyStr i }
      else s1
    | Option.none => s1
  (s2, .ok userId)

/-- The stored thread id `_save_post` derives: digit strings are converted
by the pipeline itself (`isdigit` check) and INTEGER affinity applies on
storage. -/
def postStoredTid (i : PostItem) : PyVal :=
  intAffinity
    (match i.thread_id with
     | .str k => if strIsDigit k then .int (digitStrToNat k) else .str k
     | v => v)

/-- The stored sequence number `_save_post` derives. -/
def postStoredNum (i : PostItem) : PyVal := intAffinity i.post_number

/-- The user reference `_save_post` binds: a falsy direct user id together
with a truthy username triggers a username-cache lookup (NULL on a miss). -/
def postResolvedUid (item : PostItem) (s : Pipeline) : PyVal :=
  if !item.user_id.truthy && item.username.truthy then
    match cacheGet s.user_name_to_id item.username.pyStr with
    | some m => .int m
    | Option.none => .none
  else item.user_id

/-- The row `_save_post` inserts. -/
def postNewRow (now : String) (item : PostItem) (s : Pipeline) : PostRow :=
  { id := s.db.postsSeq + 1
    thread_id := postStoredTid item
    user_id := intAffinity (postResolvedUid item s)
    post_number := postStoredNum item
    content := item.content
    content_urls :=
      match item.content_urls with
      | some l => .str (jsonDumpsList l)
      | Option.none => .none
    post_date := item.post_date
    url := item.url
    username := item.username
    created_at := pyOr item.created_at (.str now)
    updated_at := pyOr item.updated_at (.str now) }

/-- `SQLitePipeline._save_post`: the row goes in with `INSERT OR REPLACE`,
deleting every stored row that matches the new row's non-NULL
`(thread_id, post_number)` pair. -/
def savePost (now : String) (item : PostItem) (s : Pipeline) : Pipeline × Outcome :=
  let row := postNewRow now item s
  let db :=
    { s.db with
      posts := (s.db.posts.filter
          (fun r => !(sqlEq r.thread_id (postStoredTid item) &&
            sqlEq r.post_number (postStoredNum item)))) ++ [row]
      postsSeq := s.db.postsSeq + 1
      lastInsertRowid := s.db.postsSeq + 1 }
  ({ s with db := db }, .ok Option.none)

/-- The tagged entity stream consumed by `SQLitePipeline.process_item`. -/
inductive Item where
  | ofForum (i : ForumItem)
  | ofSection (i : SectionItem)
  | ofThread (i : ThreadItem)
  | ofUser (i : UserItem)
  | ofPost (i : PostItem)
deriving DecidableEq, Repr

/-- `SQLitePipeline.process_item`: dispatch on the item class. -/
def processItem (now : String) (it : Item) (s : Pipeline) : Pipeline × Outcome :=
  match it with
  | .ofForum i => saveForum now i s
  | .ofSection i => saveSection now i s
  | .ofThread i => saveThread now i s
  | .ofUser i => saveUser now i s
  | .ofPost i => savePost now i s

/-- Feeding a stream of parsed items through the pipeline.  An
`IntegrityError` raised by one item drops that item but the crawl and the
shared connection continue, as under Scrapy. -/
def runItems (now : String) (items : List Item) (s : Pipeline) : Pipeline :=
  items.foldl (fun st it => (processItem now it st).1) s

/-- `urllib.parse.urlparse` output restricted to the two fields the spiders
read, with the query already split into key/value pairs in page order
(parsed URLs are the boundary with `urllib` in this embedding). -/
structure Url where
  path : String := ""
  query : List (String × String) := []
deriving DecidableEq, Repr

/-- `urllib.parse.parse_qs(query)[k]`: the values listed under key `k` in
order, blank values dropped (`keep_blank_values` is left at `False`). -/
def qsVals (q : List (String × String)) (k : String) : List String :=
  (q.filter (fun p => p.1 == k && p.2 != "")).map (·.2)

/-- `parse_qs(query).get(k, [d])[0]`. -/
def qsFirst (q : List (String × String)) (k : String) (d : String) : String :=
  (qsVals q k).headD d

/-- The Unicode character database as the identifier extractor consumes it,
a boundary of this embedding: `isdigit c` is Python's `str.isdigit` at the
character `c`, `isDecimal c` is membership in the decimal-digit category Nd
(the characters the regex class `\d` matches and `int` converts), and
`digitVal c` the value `int` assigns to a decimal digit.  Python's
`str.isdigit` also accepts non-decimal digit characters (SUPERSCRIPT TWO
among them) on which `int` raises `ValueError`. -/
structure UnicodeDB where
  isdigit : Char → Bool
  isDecimal : Char → Bool
  digitVal : Char → Nat

/-- The facts about the character database the development relies on: every
decimal digit is a digit, on the ASCII range both classes are exactly
`0`-`9`, and ASCII digits carry their usual values. -/
def UnicodeDB.Faithful (db : UnicodeDB) : Prop :=
  (∀ c, db.isDecimal c = true → db.isdigit c = true) ∧
  (∀ c : Char, c.toNat < 128 → db.isdigit c = c.isDigit ∧ db.isDecimal c = c.isDigit) ∧
  (∀ c : Char, c.isDigit = true → db.digitVal c = c.toNat - 48)

/-- Python `int(s)` on a string of digit characters: it succeeds exactly
when every character is a decimal digit (category Nd) and the string is
non-empty, and raises `ValueError` otherwise (the call sites reach `int`
only with `str.isdigit`-true strings or `\d+` matches, so signs, spaces and
underscores never occur). -/
def pyIntDigits (db : UnicodeDB) (s : String) : Option Nat :=
  if s != "" && s.toList.all db.isDecimal then
    some (s.toList.foldl (fun a c => a * 10 + db.digitVal c) 0)
  else Option.none

/-- One iteration of the `for key in ("t", "p")` loop head in
`BaseForumSpider._get_thread_id_from_url`: the key's first value when it is
present, non-empty and all digits by `str.isdigit` — the value the loop
body hands to the unguarded `int(val)`. -/
def acceptedDigitHead (db : UnicodeDB) (q : List (String × String)) (k : String) :
    Option String :=
  match qsVals q k with
  | [] => Option.none
  | v :: _ => if v != "" && v.toList.all db.isdigit then some v else Option.none

/-- The suffix of decimal digits that `re.search(r"(\d+)$", path)`
captures. -/
def trailingDecimalDigits (db : UnicodeDB) (s : String) : List Char :=
  (s.toList.reverse.takeWhile db.isDecimal).reverse

/-- `BaseForumSpider._get_thread_id_from_url`.  `Except.error ()` is an
uncaught `ValueError` escaping the method: the `int(val)` in the query loop
is unguarded, so a `str.isdigit`-true value containing a non-decimal digit
raises out of the function, while the path fallback wraps its `int` in
try/except and would return None on failure.  `Option.none` as input
models a falsy URL (early `None` return). -/
def baseGetThreadIdFromUrl (db : UnicodeDB) (url : Option Url) :
    Except Unit (Option Int) :=
  match url with
  | Option.none => .ok Option.none
  | some u =>
    match acceptedDigitHead db u.query "t" with
    | some v =>
      match pyIntDigits db v with
      | some n => .ok (some (n : Int))
      | Option.none => .error ()
    | Option.none =>
      match acceptedDigitHead db u.query "p" with
      | some v =>
        match pyIntDigits db v with
        | some n => .ok (some (n : Int))
        | Option.none => .error ()
      | Option.none =>
        let ds := trailingDecimalDigits db u.path
        if ds.isEmpty then .ok Option.none
        else
          match pyIntDigits db (String.mk ds) with
          | some n => .ok (some (n : Int))
          | Option.none => .ok Option.none

/-- The first value of key `k`, taken as a number when it is a non-empty
string of decimal digits (the spec's notion of a numeric identifier). -/
def decimalHead (db : UnicodeDB) (q : List (String × String)) (k : String) :
    Option Int :=
  match qsVals q k with
  | [] => Option.none
  | v :: _ => (pyIntDigits db v).map (fun n => (n : Int))

/-- The spec's path fallback: the value of the trailing decimal digits of
the path, when there are any. -/
def specTrailing (db : UnicodeDB) (s : String) : Option Int :=
  let ds := trailingDecimalDigits db s
  if ds.isEmpty then Option.none
  else (pyIntDigits db (String.mk ds)).map (fun n => (n : Int))

/-- `thread_id_from_url` as the spec words it: inspect the query for the
thread-identifying key and then the post-identifying key, taking a numeric
value as the integer identifier; with neither, fall back to the trailing
digits of the URL path; with no numeric identifier anywhere, none — and
never an exception. -/
def specThreadIdFromUrl (db : UnicodeDB) (url : Option Url) : Option Int :=
  match url with
  | Option.none => Option.none
  | some u =>
    ((decimalHead db u.query "t").orElse fun _ =>
      (decimalHead db u.query "p").orElse fun _ => specTrailing db u.path)

/-- A character database agreeing with the real Unicode tables on the
ASCII range and on SUPERSCRIPT TWO, which `str.isdigit` accepts and `int`
rejects. -/
def supTwoDB : UnicodeDB :=
  { isdigit := fun c => c.isDigit || c == '²'
    isDecimal := fun c => c.isDigit
    digitVal := fun c => c.toNat - 48 }

/-- `WiaraSpider._get_thread_id_from_url` (the override the wiara spider
actually runs): only the `t` query parameter is consulted and its raw string
value is returned; any exception (for a falsy URL) yields none. -/
def wiaraGetThreadIdFromUrl (url : Option Url) : Option String :=
  match url with
  | Option.none => Option.none
  | some u =>
    match qsVals u.query "t" with
    | [] => Option.none
    | v :: _ => if v != "" then some v else Option.none

/-- Python `pat in s` (substring test). -/
def charsContain (pat : List Char) : List Char → Bool
  | [] => pat.isEmpty
  | c :: rest => pat.isPrefixOf (c :: rest) || charsContain pat rest

/-- Python `pat in s` on strings. -/
def strContains (s pat : String) : Bool := charsContain pat.toList s.toList

/-- An anchor of a fetched page: its raw `href` attribute, the absolute URL
string `urljoin(response.url, href)` produces for it, the parse of that
absolute URL, and whether the anchor sits inside a `td.gensmall` paging cell
(URL joining and CSS ancestry are part of the page input, the boundary with
Scrapy's selectors). -/
structure Anchor where
  href : String := ""
  fullStr : String := ""
  full : Url := {}
  inGensmallCell : Bool := false
deriving DecidableEq, Repr

/-- A fetched page as the pagination helpers see it: its own URL (string and
parse) and its anchors in document order. -/
structure PageModel where
  urlStr : String := ""
  url : Url := {}
  anchors : List Anchor := []
deriving DecidableEq, Repr

/-- Order-preserving removal of duplicates, later occurrences dropped. -/
def dedupFirstAux (seen : List String) : List String → List String
  | [] => []
  | x :: xs =>
    if seen.contains x then dedupFirstAux seen xs
    else x :: dedupFirstAux (x :: seen) xs

/-- `seen`-set deduplication keeping first occurrences, as coded at the end
of `BaseForumSpider._extract_forum_pagination_links`. -/
def dedupFirst (l : List String) : List String := dedupFirstAux [] l

/-- The `links` list `BaseForumSpider._extract_forum_pagination_links`
accumulates before its final deduplication: select the anchors whose href
carries the view type and a `start=` parameter (falling back to any
`start=` anchor), join each href, and keep only links whose joined path
still carries the view type and whose `start` offset differs from the
current page's offset. -/
def forumPaginationCandidates (page : PageModel) (viewType : String) : List String :=
  let currentStart := qsFirst page.url.query "start" "0"
  let primary := page.anchors.filter
    (fun a => strContains a.href viewType && strContains a.href "start=")
  let hrefs :=
    if primary.isEmpty then page.anchors.filter (fun a => strContains a.href "start=")
    else primary
  (hrefs.filter
      (fun a => strContains a.full.path viewType &&
        qsFirst a.full.query "start" "0" != currentStart)).map (·.fullStr)

/-- `BaseForumSpider._extract_forum_pagination_links`: the candidate links
above, deduplicated preserving first-seen order. -/
def extractForumPaginationLinks (page : PageModel) (viewType : String) : List String :=
  dedupFirst (forumPaginationCandidates page viewType)

/-- `WiaraSpider._extract_thread_pagination_links`: every `viewtopic.php`
anchor inside a `td.gensmall` cell is returned joined, in document order,
with no offset filtering and no deduplication. -/
def extractThreadPaginationLinks (page : PageModel) : List String :=
  ((page.anchors.filter
      (fun a => a.inGensmallCell && strContains a.href "viewtopic.php")).filter
    (fun a => a.href != "")).map (·.fullStr)

/-- `re.search(r"p=(\d+)", s)` followed by `int(...)` on the first capture:
the digits after the leftmost `p=` that at least one digit follows. -/
def searchPNum : List Char → Option Nat
  | [] => Option.none
  | c :: rest =>
    match c, rest with
    | 'p', '=' :: tl =>
      let ds := tl.takeWhile Char.isDigit
      if ds.isEmpty then searchPNum rest
      else some (digitStrToNat (String.mk ds))
    | _, _ => searchPNum rest

/-- The structural pieces of one candidate post row (`tr.row1`/`tr.row2`)
that `WiaraSpider._extract_post_data` reads: the author text, the
`.postsubject` link, the `.postbody` outer HTML, and the `.postbottom` date
text of the following row.  A missing selector match and a missing text both
appear as `Option.none`. -/
structure PostRowInput where
  authorText : Option String := Option.none
  postLink : Option String := Option.none
  bodyHtml : Option String := Option.none
  dateText : Option String := Option.none
deriving DecidableEq, Repr

/-- `WiaraSpider._extract_post_data`, parameterised by the helpers imported
from `forums_scraper.utils` (their bodies live outside the sources under
review): quote stripping, URL extraction against a base URL, text cleaning
and Polish date parsing, plus `urljoin(response.url, ...)`. -/
def extractPostData
    (stripQuotesFromHtml : String → String)
    (extractUrlsFromHtml : String → String → List String)
    (cleanPostContent : String → String)
    (parsePolishDate : String → Option String)
    (joinUrl : String → String)
    (responseUrlStr : String)
    (threadId : PyVal)
    (row : PostRowInput) : Option PostItem :=
  match row.authorText with
  | Option.none => Option.none
  | some authorText =>
    if authorText = "" then Option.none
    else
      let author := authorText.trim
      let postUrl : PyVal :=
        match row.postLink with
        | some l => if l != "" then .str (joinUrl l) else .none
        | Option.none => .none
      let postNumber : PyVal :=
        match row.postLink with
        | some l =>
          if l != "" then
            match searchPNum l.toList with
            | some n => .int (n : Int)
            | Option.none => .none
          else .none
        | Option.none => .none
      let contentPair : PyVal × Option (List String) :=
        match row.bodyHtml with
        | some h =>
          let noQuotes := stripQuotesFromHtml h
          (.str (cleanPostContent noQuotes),
           some (extractUrlsFromHtml noQuotes responseUrlStr))
        | Option.none => (.str "", some [])
      let postDate : PyVal :=
        match row.dateText with
        | some d =>
          if d != "" then
            match parsePolishDate d.trim with
            | some conv => .str conv
            | Option.none => .str d.trim
          else .none
        | Option.none => .none
      some
        { thread_id := threadId
          user_id := .none
          username := .str author
          post_number := postNumber
          content := contentPair.1
          content_urls := contentPair.2
          post_date := postDate
          url := postUrl }

/-- The shape the page parsers guarantee for the items they emit: forums
carry a spider name, sections and threads a URL string, threads no direct
numeric section id (the parsers pass at most a section URL), users a
username string, posts a non-null thread id and an integer sequence
number. -/
def ItemWF : Item → Prop
  | .ofForum i => ∃ nm, i.spider_name = .str nm
  | .ofSection i => ∃ u, i.url = .str u
  | .ofThread i => (∃ u, i.url = .str u) ∧ i.section_id = .none ∧
      (i.section_url = .none ∨ ∃ su, i.section_url = .str su)
  | .ofUser i => ∃ nm, i.username = .str nm
  | .ofPost i => i.thread_id ≠ .none ∧ ∃ k : Int, i.post_number = .int k

/-- Key presence in the store for one item: what a first processing of the
item leaves behind and what makes a second processing count-neutral. -/
def SeededOne : Item → Pipeline → Prop
  | .ofForum _, _ => True
  | .ofSection i, s => ∀ u, i.url = .str u → ∃ r ∈ s.db.sections, r.url = .str u
  | .ofThread i, s =>
      (∀ su, i.section_url = .str su → su ≠ "" → ∃ r ∈ s.db.sections, r.url = .str su) ∧
      (i.section_url.truthy = true → ∀ u, i.url = .str u → ∃ r ∈ s.db.threads, r.url = .str u)
  | .ofUser i, s => ∀ nm, i.username = .str nm → ∃ r ∈ s.db.users, r.username = .str nm
  | .ofPost i, s => ∃ r ∈ s.db.posts,
      r.thread_id = postStoredTid i ∧ r.post_number = postStoredNum i

/-- At most one stored post row per (thread id, sequence number) key: the
invariant the composite UNIQUE constraint maintains. -/
def PostKeysUnique (s : Pipeline) : Prop :=
  ∀ t n : PyVal,
    (s.db.posts.filter
      (fun r => sqlEq r.thread_id t && sqlEq r.post_number n)).length ≤ 1

/-- Recognizer for forum items, counting the rows the unconditional forum
insert adds per run. -/
def isForumItem : Item → Bool
  | .ofForum _ => true
  | _ => false

theorem sqlEq_none_right (x : PyVal) : sqlEq x PyVal.none = false := by
  cases x <;> rfl

theorem sqlEq_none_left (x : PyVal) : sqlEq PyVal.none x = false := by
  cases x <;> rfl

theorem sqlEq_eq_true_iff {x y : PyVal} : sqlEq x y = true ↔ x = y ∧ x ≠ PyVal.none := by
  cases x <;> cases y <;> simp [sqlEq]

theorem sqlEq_self {x : PyVal} (h : x ≠ PyVal.none) : sqlEq x x = true :=
  sqlEq_eq_true_iff.mpr ⟨rfl, h⟩

theorem intAffinity_ne_none {x : PyVal} (h : x ≠ PyVal.none) : intAffinity x ≠ PyVal.none := by
  cases x with
  | none => exact absurd rfl h
  | int n => simp [intAffinity]
  | str s => by_cases hd : strIsDigit s = true <;> simp [intAffinity, hd]

theorem postStoredTid_ne_none {i : PostItem} (h : i.thread_id ≠ PyVal.none) :
    postStoredTid i ≠ PyVal.none := by
  unfold postStoredTid
  apply intAffinity_ne_none
  cases hv : i.thread_id with
  | none => exact absurd hv h
  | int n => simp
  | str k => by_cases hd : strIsDigit k = true <;> simp [hd]

theorem filter_not_filter (q : α → Bool) (l : List α) :
    (l.filter (fun a => !(q a))).filter q = [] := by
  induction l with
  | nil => rfl
  | cons a t ih => by_cases hqa : q a = true <;> simp [List.filter, hqa, ih]

theorem length_filter_add_not (q : α → Bool) (l : List α) :
    (l.filter q).length + (l.filter (fun a => !(q a))).length = l.length := by
  induction l with
  | nil => rfl
  | cons a t ih => by_cases hqa : q a = true <;> simp [List.filter, hqa] <;> omega

theorem postNewRow_thread_id (now : String) (item : PostItem) (s : Pipeline) :
    (postNewRow now item s).thread_id = postStoredTid item := rfl

theorem postNewRow_post_number (now : String) (item : PostItem) (s : Pipeline) :
    (postNewRow now item s).post_number = postStoredNum item := rfl

theorem postNewRow_content (now : String) (item : PostItem) (s : Pipeline) :
    (postNewRow now item s).content = item.content := rfl

theorem saveUser_users_of_conflict (now : String) (item : UserItem) (s : Pipeline)
    (h : s.db.users.any (fun r => sqlEq r.username item.username) = true) :
    (saveUser now item s).1.db.users = s.db.users := by
  simp only [saveUser, h, if_true]
  split <;> (try split) <;> rfl

theorem saveUser_users_of_fresh (now : String) (item : UserItem) (s : Pipeline)
    (h : s.db.users.any (fun r => sqlEq r.username item.username) = false) :
    (saveUser now item s).1.db.users = s.db.users ++
      [{ id := s.db.usersSeq + 1, username := item.username, join_date := item.join_date,
         posts_count := intAffinity item.posts_count, religion := item.religion,
         gender := item.gender, localization := item.localization,
         created_at := pyOr item.created_at (.str now),
         updated_at := pyOr item.updated_at (.str now) }] := by
  simp only [saveUser, h, Bool.false_eq_true, if_false]
  split <;> (try split) <;> rfl

theorem saveUser_keeps (now : String) (item : UserItem) (s : Pipeline) :
    (saveUser now item s).1.db.sections = s.db.sections ∧
    (saveUser now item s).1.db.threads = s.db.threads ∧
    (saveUser now item s).1.db.posts = s.db.posts ∧
    (saveUser now item s).1.db.forums = s.db.forums := by
  refine ⟨?_, ?_, ?_, ?_⟩ <;> simp only [saveUser] <;> (repeat' split) <;> rfl

theorem saveSection_sections_of_conflict (now : String) (item : SectionItem) (s : Pipeline)
    (h : s.db.sections.any (fun r => sqlEq r.url item.url) = true) :
    (saveSection now item s).1.db.sections = s.db.sections := by
  simp only [saveSection, h, if_true]
  split <;> (try split) <;> (try split) <;> rfl

theorem saveSection_sections_of_fresh (now : String) (item : SectionItem) (s : Pipeline)
    (h : s.db.sections.any (fun r => sqlEq r.url item.url) = false) :
    ∃ fid, (saveSection now item s).1.db.sections = s.db.sections ++
      [{ id := s.db.sectionsSeq + 1, forum_id := fid, title := item.title,
         url := item.url,
         created_at := pyOr item.created_at (.str now),
         updated_at := pyOr item.updated_at (.str now) }] := by
  simp only [saveSection, h, Bool.false_eq_true, if_false]
  repeat' split
  all_goals exact ⟨_, rfl⟩

theorem saveSection_keeps (now : String) (item : SectionItem) (s : Pipeline) :
    (saveSection now item s).1.db.threads = s.db.threads ∧
    (saveSection now item s).1.db.users = s.db.users ∧
    (saveSection now item s).1.db.posts = s.db.posts ∧
    (saveSection now item s).1.db.forums = s.db.forums := by
  refine ⟨?_, ?_, ?_, ?_⟩ <;> simp only [saveSection] <;> (repeat' split) <;> rfl

theorem saveForum_forums_of_named (now : String) (item : ForumItem) (s : Pipeline)
    (h : item.spider_name ≠ PyVal.none) :
    (saveForum now item s).1.db.forums = s.db.forums ++
      [{ id := s.db.forumsSeq + 1, spider_name := item.spider_name, title := item.title,
         created_at := pyOr item.created_at (.str now),
         updated_at := pyOr item.updated_at (.str now) }] := by
  simp only [saveForum, h, if_false]
  split <;> (try split) <;> rfl

theorem saveForum_keeps (now : String) (item : ForumItem) (s : Pipeline) :
    (saveForum now item s).1.db.sections = s.db.sections ∧
    (saveForum now item s).1.db.threads = s.db.threads ∧
    (saveForum now item s).1.db.users = s.db.users ∧
    (saveForum now item s).1.db.posts = s.db.posts := by
  refine ⟨?_, ?_, ?_, ?_⟩ <;> simp only [saveForum] <;> (repeat' split) <;> rfl

theorem saveForum_forums_mono (now : String) (item : ForumItem) (s : Pipeline) :
    ∃ tl, (saveForum now item s).1.db.forums = s.db.forums ++ tl := by
  simp only [saveForum]
  repeat' split
  all_goals first
    | exact ⟨[], (List.append_nil _).symm⟩
    | exact ⟨_, rfl⟩

theorem savePost_posts (now : String) (item : PostItem) (s : Pipeline) :
    (savePost now item s).1.db.posts =
      (s.db.posts.filter
        (fun r => !(sqlEq r.thread_id (postStoredTid item) &&
          sqlEq r.post_number (postStoredNum item)))) ++ [postNewRow now item s] := rfl

theorem savePost_keeps (now : String) (item : PostItem) (s : Pipeline) :
    (savePost now item s).1.db.sections = s.db.sections ∧
    (savePost now item s).1.db.threads = s.db.threads ∧
    (savePost now item s).1.db.users = s.db.users ∧
    (savePost now item s).1.db.forums = s.db.forums :=
  ⟨rfl, rfl, rfl, rfl⟩

theorem resolveThreadSection_keeps (now : String) (item : ThreadItem) (s : Pipeline) :
    (resolveThreadSection now item s).1.db.threads = s.db.threads ∧
    (resolveThreadSection now item s).1.db.users = s.db.users ∧
    (resolveThreadSection now item s).1.db.posts = s.db.posts ∧
    (resolveThreadSection now item s).1.db.forums = s.db.forums := by
  refine ⟨?_, ?_, ?_, ?_⟩ <;> simp only [resolveThreadSection] <;> (repeat' split) <;> rfl

theorem resolveThreadSection_sections_mono (now : String) (item : ThreadItem) (s : Pipeline) :
    ∃ tl, (resolveThreadSection now item s).1.db.sections = s.db.sections ++ tl := by
  simp only [resolveThreadSection]
  repeat' split
  all_goals first
    | exact ⟨[], (List.append_nil _).symm⟩
    | exact ⟨_, rfl⟩

theorem insertThread_keeps (now : String) (item : ThreadItem) (s1 : Pipeline) (sid : PyVal) :
    (insertThread now item s1 sid).1.db.sections = s1.db.sections ∧
    (insertThread now item s1 sid).1.db.users = s1.db.users ∧
    (insertThread now item s1 sid).1.db.posts = s1.db.posts ∧
    (insertThread now item s1 sid).1.db.forums = s1.db.forums := by
  refine ⟨?_, ?_, ?_, ?_⟩ <;> simp only [insertThread] <;> (repeat' split) <;> rfl

theorem insertThread_threads_mono (now : String) (item : ThreadItem) (s1 : Pipeline) (sid : PyVal) :
    ∃ tl, (insertThread now item s1 sid).1.db.threads = s1.db.threads ++ tl := by
  simp only [insertThread]
  repeat' split
  all_goals first
    | exact ⟨[], (List.append_nil _).symm⟩
    | exact ⟨_, rfl⟩

/-- C2: upserting a post twice with the same (thread id, sequence number)
pair and different contents leaves exactly one stored row for that pair,
holding the second call's content (`INSERT OR REPLACE` deletes the prior
row before inserting the new one). -/
theorem post_upsert_last_write_wins
    (now1 now2 : String) (s : Pipeline) (item1 item2 : PostItem)
    (t n : Int) (c1 c2 : String)
    (h1t : item1.thread_id = .int t) (h2t : item2.thread_id = .int t)
    (h1n : item1.post_number = .int n) (h2n : item2.post_number = .int n)
    (h1c : item1.content = .str c1) (h2c : item2.content = .str c2)
    (hne : c1 ≠ c2) :
    (((savePost now2 item2 (savePost now1 item1 s).1).1.db.posts.filter
        (fun r => sqlEq r.thread_id (.int t) && sqlEq r.post_number (.int n))).map
      (fun r => r.content)) = [.str c2] := by
  have k1 : postStoredTid item1 = .int t := by simp [postStoredTid, h1t, intAffinity]
  have k2 : postStoredTid item2 = .int t := by simp [postStoredTid, h2t, intAffinity]
  have m1 : postStoredNum item1 = .int n := by simp [postStoredNum, h1n, intAffinity]
  have m2 : postStoredNum item2 = .int n := by simp [postStoredNum, h2n, intAffinity]
  simp only [savePost, k1, k2, m1, m2]
  simp [List.filter_append, filter_not_filter, postNewRow_thread_id, postNewRow_post_number,
    postNewRow_content, k2, m2, h2c, sqlEq]

/-- Closed instance of `post_upsert_last_write_wins`. -/
theorem post_upsert_last_write_wins_witness :
    (((savePost "T2" { thread_id := .int 5, post_number := .int 3, content := .str "second" }
        (savePost "T1"
          { thread_id := .int 5, post_number := .int 3, content := .str "first" }
          {}).1).1.db.posts.filter
        (fun r => sqlEq r.thread_id (.int 5) && sqlEq r.post_number (.int 3))).map
      (fun r => r.content)) = [.str "second"] :=
  post_upsert_last_write_wins "T1" "T2" {}
    { thread_id := .int 5, post_number := .int 3, content := .str "first" }
    { thread_id := .int 5, post_number := .int 3, content := .str "second" }
    5 3 "first" "second" rfl rfl rfl rfl rfl rfl (by decide)

/-- C10: two post upserts with a NULL thread id and the same sequence number
do not replace each other: NULL thread ids never conflict under the
composite UNIQUE constraint, so the store ends up with two separate rows. -/
theorem null_thread_posts_stored_separately
    (now1 now2 : String) (s : Pipeline) (item1 item2 : PostItem)
    (n : Int) (c1 c2 : String)
    (h1t : item1.thread_id = .none) (h2t : item2.thread_id = .none)
    (h1n : item1.post_number = .int n) (h2n : item2.post_number = .int n)
    (h1c : item1.content = .str c1) (h2c : item2.content = .str c2) :
    ((savePost now2 item2 (savePost now1 item1 s).1).1.db.posts.map
        (fun r => (r.thread_id, r.post_number, r.content))) =
      s.db.posts.map (fun r => (r.thread_id, r.post_number, r.content)) ++
        [(PyVal.none, PyVal.int n, PyVal.str c1),
         (PyVal.none, PyVal.int n, PyVal.str c2)] := by
  have k1 : postStoredTid item1 = PyVal.none := by simp [postStoredTid, h1t, intAffinity]
  have k2 : postStoredTid item2 = PyVal.none := by simp [postStoredTid, h2t, intAffinity]
  have m1 : postStoredNum item1 = .int n := by simp [postStoredNum, h1n, intAffinity]
  have m2 : postStoredNum item2 = .int n := by simp [postStoredNum, h2n, intAffinity]
  have hfil : ∀ (l : List PostRow) (b : PyVal),
      l.filter (fun r => !(sqlEq r.thread_id PyVal.none && sqlEq r.post_number b)) = l := by
    intro l b
    apply List.filter_eq_self.mpr
    intro r hr
    simp [sqlEq_none_right]
  simp only [savePost, k1, k2, m1, m2, hfil]
  simp [postNewRow_thread_id, postNewRow_post_number, postNewRow_content,
    k1, k2, m1, m2, h1c, h2c]

/-- Closed instance of `null_thread_posts_stored_separately`. -/
theorem null_thread_posts_stored_separately_witness :
    ((savePost "T2" { post_number := .int 3, content := .str "b" }
        (savePost "T1" { post_number := .int 3, content := .str "a" } {}).1).1.db.posts.map
        (fun r => (r.thread_id, r.post_number, r.content))) =
      ({} : Pipeline).db.posts.map (fun r => (r.thread_id, r.post_number, r.content)) ++
        [(PyVal.none, PyVal.int 3, PyVal.str "a"),
         (PyVal.none, PyVal.int 3, PyVal.str "b")] :=
  null_thread_posts_stored_separately "T1" "T2" {}
    { post_number := .int 3, content := .str "a" }
    { post_number := .int 3, content := .str "b" }
    3 "a" "b" rfl rfl rfl rfl rfl rfl

/-- C8: upserting a user whose username already has a stored row is a no-op
on the stored rows (`INSERT OR IGNORE` on the UNIQUE username): starting
from a store without the username, two upserts with conflicting demographic
fields leave exactly one row for it, carrying the first call's values. -/
theorem user_upsert_first_write_wins
    (now1 now2 : String) (s : Pipeline) (item1 item2 : UserItem) (u : String)
    (h1 : item1.username = .str u) (h2 : item2.username = .str u)
    (h0 : ∀ r ∈ s.db.users, sqlEq r.username (.str u) = false) :
    (saveUser now2 item2 (saveUser now1 item1 s).1).1.db.users =
      (saveUser now1 item1 s).1.db.users ∧
    ((saveUser now2 item2 (saveUser now1 item1 s).1).1.db.users.filter
        (fun r => sqlEq r.username (.str u))).map
      (fun r => (r.join_date, r.posts_count, r.religion, r.gender, r.localization)) =
      [(item1.join_date, intAffinity item1.posts_count, item1.religion, item1.gender,
        item1.localization)] := by
  have hany1 : (s.db.users.any fun r => sqlEq r.username item1.username) = false := by
    rw [h1]
    exact List.any_eq_false.mpr (fun r hr => by simp [h0 r hr])
  have hs1 := saveUser_users_of_fresh now1 item1 s hany1
  have hany2 : ((saveUser now1 item1 s).1.db.users.any
      fun r => sqlEq r.username item2.username) = true := by
    rw [hs1, h2, List.any_append]
    simp [h1, sqlEq]
  have hs2 := saveUser_users_of_conflict now2 item2 (saveUser now1 item1 s).1 hany2
  refine ⟨hs2, ?_⟩
  rw [hs2, hs1, List.filter_append]
  have h0' : s.db.users.filter (fun r => sqlEq r.username (.str u)) = [] :=
    List.filter_eq_nil_iff.mpr (fun r hr => by simp [h0 r hr])
  rw [h0']
  simp [h1, sqlEq]

/-- Closed instance of `user_upsert_first_write_wins`. -/
theorem user_upsert_first_write_wins_witness :
    (saveUser "T2" { username := .str "Jan", religion := .str "B" }
        (saveUser "T1" { username := .str "Jan", religion := .str "A" } {}).1).1.db.users =
      (saveUser "T1" { username := .str "Jan", religion := .str "A" } {}).1.db.users ∧
    ((saveUser "T2" { username := .str "Jan", religion := .str "B" }
        (saveUser "T1" { username := .str "Jan", religion := .str "A" } {}).1).1.db.users.filter
        (fun r => sqlEq r.username (.str "Jan"))).map
      (fun r => (r.join_date, r.posts_count, r.religion, r.gender, r.localization)) =
      [(PyVal.none, intAffinity PyVal.none, PyVal.str "A", PyVal.none, PyVal.none)] :=
  user_upsert_first_write_wins "T1" "T2" {}
    { username := .str "Jan", religion := .str "A" }
    { username := .str "Jan", religion := .str "B" }
    "Jan" rfl rfl (fun r hr => absurd hr (List.not_mem_nil r))

/-- C7 (failing run): after upserting users Jan and Ola and then upserting
Jan a second time, the duplicate insert is ignored but `cursor.lastrowid`
still shows Ola's rowid, so the pipeline caches the wrong id for Jan; a post
referencing `username="Jan"` with no direct user id is then stored with
`user_id = 2` even though Jan's stored row has id 1. -/
theorem username_resolution_uses_stale_rowid :
    ((runItems "2026-02-03T00:00:00"
        [Item.ofUser { username := .str "Jan" },
         Item.ofUser { username := .str "Ola" },
         Item.ofUser { username := .str "Jan" },
         Item.ofPost { thread_id := .int 7, post_number := .int 1,
                       content := .str "dzien dobry", username := .str "Jan" }]
        {}).db.posts.map (fun r => r.user_id) = [PyVal.int 2]) ∧
    ((runItems "2026-02-03T00:00:00"
        [Item.ofUser { username := .str "Jan" },
         Item.ofUser { username := .str "Ola" },
         Item.ofUser { username := .str "Jan" },
         Item.ofPost { thread_id := .int 7, post_number := .int 1,
                       content := .str "dzien dobry", username := .str "Jan" }]
        {}).db.users.map (fun r => (r.id, r.username)) =
      [(1, PyVal.str "Jan"), (2, PyVal.str "Ola")]) :=
  ⟨rfl, rfl⟩

theorem cacheGet_cacheSet_self (c : Cache) (k : String) (v : Nat) :
    cacheGet (cacheSet c k v) k = some v := by
  simp [cacheGet, cacheSet, List.find?]

theorem saveSection_lastrowid_of_conflict (now : String) (item : SectionItem) (s : Pipeline)
    (h : s.db.sections.any (fun r => sqlEq r.url item.url) = true) :
    (saveSection now item s).1.db.lastInsertRowid = s.db.lastInsertRowid := by
  simp only [saveSection, h, if_true]
  split <;> (try split) <;> rfl

theorem saveSection_outcome_of_conflict (now : String) (item : SectionItem) (s : Pipeline)
    (h : s.db.sections.any (fun r => sqlEq r.url item.url) = true) :
    (saveSection now item s).2 = .ok
      (if s.db.lastInsertRowid ≠ 0 then some s.db.lastInsertRowid
       else (s.db.sections.find? (fun r => sqlEq r.url item.url)).map (·.id)) := by
  simp only [saveSection, h, if_true]

theorem saveSection_outcome_of_fresh (now : String) (item : SectionItem) (s : Pipeline)
    (h : s.db.sections.any (fun r => sqlEq r.url item.url) = false) :
    (saveSection now item s).2 = .ok (some (s.db.sectionsSeq + 1)) ∧
    (saveSection now item s).1.db.lastInsertRowid = s.db.sectionsSeq + 1 := by
  simp only [saveSection, h, Bool.false_eq_true, if_false]
  constructor
  · simp
  · split <;> (try split) <;> rfl

theorem saveSection_cache_of_some (now : String) (item : SectionItem) (s : Pipeline)
    (u : String) (i : Nat)
    (hid : (saveSection now item s).2 = .ok (some i))
    (hu : item.url = .str u) (hu' : u ≠ "") :
    cacheGet (saveSection now item s).1.section_url_to_id u = some i := by
  simp only [saveSection] at hid ⊢
  rw [Outcome.ok.injEq] at hid
  rw [hid]
  simp [hu, PyVal.truthy, hu', PyVal.pyStr, cacheGet_cacheSet_self]

/-- C6: upserting a section twice with the same URL leaves exactly one
stored row for that URL and both calls compute (and cache) the same numeric
section id. -/
theorem section_upsert_idempotent
    (now1 now2 : String) (s : Pipeline) (item1 item2 : SectionItem) (u : String)
    (hu : u ≠ "")
    (h1 : item1.url = .str u) (h2 : item2.url = .str u)
    (hcount : (s.db.sections.filter (fun r => sqlEq r.url (.str u))).length ≤ 1) :
    ((saveSection now2 item2 (saveSection now1 item1 s).1).1.db.sections.filter
        (fun r => sqlEq r.url (.str u))).length = 1 ∧
    ∃ i : Nat, (saveSection now1 item1 s).2 = .ok (some i) ∧
      (saveSection now2 item2 (saveSection now1 item1 s).1).2 = .ok (some i) ∧
      cacheGet (saveSection now1 item1 s).1.section_url_to_id u = some i ∧
      cacheGet (saveSection now2 item2 (saveSection now1 item1 s).1).1.section_url_to_id u =
        some i := by
  by_cases hc : (s.db.sections.any fun r => sqlEq r.url item1.url) = true
  · -- the URL already has a stored row: both inserts are ignored
    have t1 : (saveSection now1 item1 s).1.db.sections = s.db.sections :=
      saveSection_sections_of_conflict now1 item1 s hc
    have hc2 : ((saveSection now1 item1 s).1.db.sections.any
        fun r => sqlEq r.url item2.url) = true := by
      rw [t1, h2, ← h1]; exact hc
    have t2 : (saveSection now2 item2 (saveSection now1 item1 s).1).1.db.sections =
        s.db.sections := by
      rw [saveSection_sections_of_conflict now2 item2 _ hc2, t1]
    have lr1 : (saveSection now1 item1 s).1.db.lastInsertRowid = s.db.lastInsertRowid :=
      saveSection_lastrowid_of_conflict now1 item1 s hc
    -- exactly one row for the URL
    have hex : ∃ r ∈ s.db.sections, sqlEq r.url (.str u) = true := by
      rw [h1] at hc; exact List.any_eq_true.mp hc
    have hone : (s.db.sections.filter (fun r => sqlEq r.url (.str u))).length = 1 := by
      obtain ⟨r0, hr0m, hr0p⟩ := hex
      have : r0 ∈ s.db.sections.filter (fun r => sqlEq r.url (.str u)) :=
        List.mem_filter.mpr ⟨hr0m, hr0p⟩
      have hpos : 0 < (s.db.sections.filter (fun r => sqlEq r.url (.str u))).length :=
        List.length_pos.mpr (List.ne_nil_of_mem this)
      omega
    refine ⟨by rw [t2]; exact hone, ?_⟩
    -- both calls compute the same id expression over the same state
    have o1 := saveSection_outcome_of_conflict now1 item1 s hc
    have o2 := saveSection_outcome_of_conflict now2 item2 _ hc2
    rw [t1, lr1] at o2
    have efind : (s.db.sections.find? fun r => sqlEq r.url item2.url) =
        (s.db.sections.find? fun r => sqlEq r.url item1.url) := by rw [h1, h2]
    rw [efind] at o2
    by_cases hL : s.db.lastInsertRowid = 0
    · -- SELECT fallback in both calls
      have hfind : ((s.db.sections.find? fun r => sqlEq r.url item1.url)).isSome := by
        rcases hfe : (s.db.sections.find? fun r => sqlEq r.url item1.url) with _ | r1
        · obtain ⟨r0, hr0m, hr0p⟩ := List.any_eq_true.mp hc
          exact absurd hr0p (by simpa using List.find?_eq_none.mp hfe r0 hr0m)
        · rw [hfe]; rfl
      obtain ⟨r1, hr1⟩ := Option.isSome_iff_exists.mp hfind
      rw [hr1] at o1 o2
      simp only [hL, if_neg (by omega : ¬ (0 : Nat) ≠ 0)] at o1 o2
      refine ⟨r1.id, by simpa using o1, by simpa using o2, ?_, ?_⟩
      · exact saveSection_cache_of_some now1 item1 s u r1.id (by simpa using o1) h1 hu
      · exact saveSection_cache_of_some now2 item2 _ u r1.id (by simpa using o2) h2 hu
    · -- stale-but-identical `cursor.lastrowid` in both calls
      rw [if_pos hL] at o1 o2
      refine ⟨s.db.lastInsertRowid, o1, o2, ?_, ?_⟩
      · exact saveSection_cache_of_some now1 item1 s u _ o1 h1 hu
      · exact saveSection_cache_of_some now2 item2 _ u _ o2 h2 hu
  · -- first call inserts the row, second is ignored with the same rowid
    have hc' : (s.db.sections.any fun r => sqlEq r.url item1.url) = false :=
      Bool.not_eq_true _ ▸ eq_false_of_ne_true hc
    obtain ⟨fid, t1⟩ := saveSection_sections_of_fresh now1 item1 s hc'
    obtain ⟨o1, lr1⟩ := saveSection_outcome_of_fresh now1 item1 s hc'
    have hrow1 : ∀ r ∈ s.db.sections, sqlEq r.url (.str u) = false := by
      intro r hr
      have := List.any_eq_false.mp hc' r hr
      rw [h1] at this
      simpa using this
    have hc2 : ((saveSection now1 item1 s).1.db.sections.any
        fun r => sqlEq r.url item2.url) = true := by
      rw [t1, h2, List.any_append]
      simp [h1, sqlEq]
    have o2 := saveSection_outcome_of_conflict now2 item2 _ hc2
    rw [lr1, if_pos (by omega : s.db.sectionsSeq + 1 ≠ 0)] at o2
    constructor
    · rw [saveSection_sections_of_conflict now2 item2 _ hc2, t1, List.filter_append]
      rw [List.filter_eq_nil_iff.mpr (fun r hr => by simp [hrow1 r hr])]
      simp [h1, sqlEq]
    · refine ⟨s.db.sectionsSeq + 1, o1, o2, ?_, ?_⟩
      · exact saveSection_cache_of_some now1 item1 s u _ o1 h1 hu
      · exact saveSection_cache_of_some now2 item2 _ u _ o2 h2 hu

/-- Closed instance of `section_upsert_idempotent`. -/
theorem section_upsert_idempotent_witness :
    ((saveSection "T2" { title := .str "S", url := .str "http://f/viewforum.php?f=1" }
        (saveSection "T1" { title := .str "S", url := .str "http://f/viewforum.php?f=1" }
          {}).1).1.db.sections.filter
        (fun r => sqlEq r.url (.str "http://f/viewforum.php?f=1"))).length = 1 ∧
    ∃ i : Nat,
      (saveSection "T1" { title := .str "S", url := .str "http://f/viewforum.php?f=1" } {}).2 =
        .ok (some i) ∧
      (saveSection "T2" { title := .str "S", url := .str "http://f/viewforum.php?f=1" }
        (saveSection "T1" { title := .str "S", url := .str "http://f/viewforum.php?f=1" }
          {}).1).2 = .ok (some i) ∧
      cacheGet (saveSection "T1" { title := .str "S", url := .str "http://f/viewforum.php?f=1" }
          {}).1.section_url_to_id "http://f/viewforum.php?f=1" = some i ∧
      cacheGet (saveSection "T2" { title := .str "S", url := .str "http://f/viewforum.php?f=1" }
          (saveSection "T1" { title := .str "S", url := .str "http://f/viewforum.php?f=1" }
            {}).1).1.section_url_to_id "http://f/viewforum.php?f=1" = some i :=
  section_upsert_idempotent "T1" "T2" {}
    { title := .str "S", url := .str "http://f/viewforum.php?f=1" }
    { title := .str "S", url := .str "http://f/viewforum.php?f=1" }
    "http://f/viewforum.php?f=1" (by decide) rfl rfl (by decide)

theorem truthy_none : PyVal.none.truthy = false := rfl

theorem truthy_str (s : String) : (PyVal.str s).truthy = (s != "") := rfl

theorem resolveThreadSection_of_nosection (now : String) (item : ThreadItem) (s : Pipeline)
    (hsid : item.section_id = PyVal.none)
    (hsu : item.section_url.truthy = false) :
    resolveThreadSection now item s = (s, item.section_id) := by
  simp [resolveThreadSection, hsid, hsu, truthy_none]

theorem resolveThreadSection_of_miss (now : String) (item : ThreadItem) (s : Pipeline)
    (su : String)
    (hsid : item.section_id = PyVal.none)
    (hsu : item.section_url = .str su) (hsu' : su ≠ "")
    (hfind : s.db.sections.find? (fun r => sqlEq r.url (.str su)) = Option.none) :
    resolveThreadSection now item s =
      ({ s with
          db := { s.db with
            sections := s.db.sections ++
              [{ id := s.db.sectionsSeq + 1, forum_id := .none,
                 title := item.section_title, url := .str su,
                 created_at := pyOr item.created_at (.str now),
                 updated_at := pyOr item.updated_at (.str now) }]
            sectionsSeq := s.db.sectionsSeq + 1
            lastInsertRowid := s.db.sectionsSeq + 1 }
          section_url_to_id := cacheSet s.section_url_to_id su (s.db.sectionsSeq + 1) },
       .int (s.db.sectionsSeq + 1)) := by
  simp [resolveThreadSection, hsid, hsu, hfind, truthy_none, truthy_str, hsu', PyVal.pyStr]

theorem insertThread_skip_of_none (now : String) (item : ThreadItem) (s1 : Pipeline) :
    (insertThread now item s1 PyVal.none).1.db.threads = s1.db.threads ∧
    (insertThread now item s1 PyVal.none).1.db.sections = s1.db.sections ∧
    (insertThread now item s1 PyVal.none).2 ≠ Outcome.err := by
  refine ⟨?_, ?_, ?_⟩ <;> simp only [insertThread] <;> (repeat' split) <;> simp_all

theorem insertThread_insert (now : String) (item : ThreadItem) (s1 : Pipeline)
    (sid : PyVal) (m : Int)
    (hsid : sid = .int m)
    (hconf : s1.db.threads.any (fun r => sqlEq r.url item.url) = false)
    (hfk : s1.db.sections.any (fun r => sid == PyVal.int r.id) = true) :
    (insertThread now item s1 sid).1.db.threads = s1.db.threads ++
      [{ id := s1.db.threadsSeq + 1, section_id := sid, title := item.title,
         url := item.url, author := item.author, replies := intAffinity item.replies,
         views := intAffinity item.views, last_post_date := item.last_post_date,
         last_post_author := item.last_post_author,
         created_at := pyOr item.created_at (.str now),
         updated_at := pyOr item.updated_at (.str now) }] ∧
    (insertThread now item s1 sid).1.db.sections = s1.db.sections ∧
    (insertThread now item s1 sid).2 = .ok (some (s1.db.threadsSeq + 1)) := by
  subst hsid
  refine ⟨?_, ?_, ?_⟩ <;> simp only [insertThread, hconf, hfk] <;>
    (repeat' split) <;> simp_all

/-- C1 (amended): a thread upsert with no direct section id behaves in two
ways, neither of which errors.  With no section URL either, the thread row
is silently *skipped* (NULL `section_id` under the NOT NULL column and
`INSERT OR IGNORE`), not inserted with a null reference; with an unknown
section URL, a placeholder section with a NULL forum reference is created
and the thread row is inserted referencing it (a non-null reference). -/
theorem thread_upsert_unresolved_section
    (now : String) (s : Pipeline) (item : ThreadItem)
    (hsid : item.section_id = PyVal.none) :
    (item.section_url = PyVal.none →
      (saveThread now item s).2 ≠ Outcome.err ∧
      (saveThread now item s).1.db.threads = s.db.threads) ∧
    (∀ su w, item.section_url = .str su → su ≠ "" → item.url = .str w →
      (∀ r ∈ s.db.sections, sqlEq r.url (.str su) = false) →
      (∀ r ∈ s.db.threads, sqlEq r.url (.str w) = false) →
      (saveThread now item s).2 ≠ Outcome.err ∧
      ∃ ps tr,
        (saveThread now item s).1.db.sections = s.db.sections ++ [ps] ∧
        ps.url = .str su ∧ ps.forum_id = PyVal.none ∧
        (saveThread now item s).1.db.threads = s.db.threads ++ [tr] ∧
        tr.section_id = .int ps.id ∧ tr.url = .str w) := by
  constructor
  · intro hsu
    have hres := resolveThreadSection_of_nosection now item s hsid (by rw [hsu]; rfl)
    have hskip := insertThread_skip_of_none now item s
    simp only [saveThread, hres, hsid, intAffinity]
    exact ⟨hskip.2.2, hskip.1⟩
  · intro su w hsu hsu' hurl hsec hthr
    have hfind : s.db.sections.find? (fun r => sqlEq r.url (.str su)) = Option.none :=
      List.find?_eq_none.mpr (fun r hr => by simp [hsec r hr])
    have hres := resolveThreadSection_of_miss now item s su hsid hsu hsu' hfind
    set ps : SectionRow :=
      { id := s.db.sectionsSeq + 1, forum_id := .none,
        title := item.section_title, url := .str su,
        created_at := pyOr item.created_at (.str now),
        updated_at := pyOr item.updated_at (.str now) } with hps
    set s1 : Pipeline :=
      { s with
        db := { s.db with
          sections := s.db.sections ++ [ps]
          sectionsSeq := s.db.sectionsSeq + 1
          lastInsertRowid := s.db.sectionsSeq + 1 }
        section_url_to_id := cacheSet s.section_url_to_id su (s.db.sectionsSeq + 1) } with hs1
    have hconf : s1.db.threads.any (fun r => sqlEq r.url item.url) = false := by
      rw [hurl]
      exact List.any_eq_false.mpr (fun r hr => by simp [hthr r hr])
    have hfk : s1.db.sections.any
        (fun r => PyVal.int (s.db.sectionsSeq + 1) == PyVal.int r.id) = true := by
      simp [hs1, List.any_append, hps]
    have hins := insertThread_insert now item s1 (PyVal.int (s.db.sectionsSeq + 1))
      (s.db.sectionsSeq + 1) rfl hconf hfk
    have hsave : saveThread now item s =
        insertThread now item s1 (PyVal.int (s.db.sectionsSeq + 1)) := by
      simp only [saveThread, hres, intAffinity]
    refine ⟨?_, ps,
      { id := s1.db.threadsSeq + 1, section_id := PyVal.int (s.db.sectionsSeq + 1),
        title := item.title, url := item.url, author := item.author,
        replies := intAffinity item.replies, views := intAffinity item.views,
        last_post_date := item.last_post_date, last_post_author := item.last_post_author,
        created_at := pyOr item.created_at (.str now),
        updated_at := pyOr item.updated_at (.str now) }, ?_, ?_, ?_, ?_, ?_, ?_⟩
    · rw [hsave, hins.2.2]; simp
    · rw [hsave, hins.2.1, hs1]
    · rw [hps]
    · rw [hps]
    · rw [hsave, hins.1]
    · rfl
    · rw [hurl]

/-- Closed instance of `thread_upsert_unresolved_section`. -/
theorem thread_upsert_unresolved_section_witness :
    (({} : ThreadItem).section_id = PyVal.none ∧
     (saveThread "T"
        { section_url := .str "http://f/viewforum.php?f=9", title := .str "temat",
          url := .str "http://f/viewtopic.php?t=1" }
        {}).2 ≠ Outcome.err ∧
     (saveThread "T"
        { section_url := .str "http://f/viewforum.php?f=9", title := .str "temat",
          url := .str "http://f/viewtopic.php?t=1" }
        {}).1.db.threads.length = 1) := by
  refine ⟨rfl, ?_, ?_⟩
  · exact ((thread_upsert_unresolved_section "T" {}
      { section_url := .str "http://f/viewforum.php?f=9", title := .str "temat",
        url := .str "http://f/viewtopic.php?t=1" } rfl).2
      "http://f/viewforum.php?f=9" "http://f/viewtopic.php?t=1" rfl (by decide) rfl
      (fun r hr => absurd hr (List.not_mem_nil r))
      (fun r hr => absurd hr (List.not_mem_nil r))).1
  · obtain ⟨-, ps, tr, hsec, -, -, hthr, -, -⟩ :=
      (thread_upsert_unresolved_section "T" {}
        { section_url := .str "http://f/viewforum.php?f=9", title := .str "temat",
          url := .str "http://f/viewtopic.php?t=1" } rfl).2
        "http://f/viewforum.php?f=9" "http://f/viewtopic.php?t=1" rfl (by decide) rfl
        (fun r hr => absurd hr (List.not_mem_nil r))
        (fun r hr => absurd hr (List.not_mem_nil r))
    rw [hthr]
    rfl

/-- C1 (counterexample to the claim as stated): upserting a thread whose
section reference is entirely absent does not insert the thread row at all —
the `threads` table stays empty rather than holding a row with a null
section reference. -/
theorem thread_upsert_unresolved_section_falsified :
    (saveThread "2026-02-03T00:00:00"
      { title := .str "temat", url := .str "http://forum.wiara.pl/viewtopic.php?t=42" }
      {}).1.db.threads = [] := rfl

theorem qsVals_ne_empty (q : List (String × String)) (k : String) :
    ∀ v ∈ qsVals q k, v ≠ "" := by
  intro v hv
  obtain ⟨⟨k', v'⟩, hmem, rfl⟩ := List.mem_map.mp hv
  have hcond := (List.mem_filter.mp hmem).2
  simp only [Bool.and_eq_true, bne_iff_ne, ne_eq] at hcond
  exact hcond.2

theorem supTwoDB_faithful : supTwoDB.Faithful := by
  refine ⟨?_, ?_, ?_⟩
  · intro c hc
    simp only [supTwoDB] at hc ⊢
    rw [hc]
    rfl
  · intro c hc
    have hne : (c == '²') = false := by
      by_contra hh
      rw [Bool.not_eq_false, beq_iff_eq] at hh
      subst hh
      simp at hc
    simp [supTwoDB, hne]
  · intro c _
    rfl

theorem acceptedDigitHead_some (db : UnicodeDB) (q : List (String × String))
    (k : String) (v : String) (h : acceptedDigitHead db q k = some v) :
    ∃ tl, qsVals q k = v :: tl := by
  cases hv : qsVals q k with
  | nil =>
    simp only [acceptedDigitHead, hv] at h
    exact Option.noConfusion h
  | cons w tl =>
    simp only [acceptedDigitHead, hv] at h
    by_cases hc : (w != "" && w.toList.all db.isdigit) = true
    · rw [if_pos hc, Option.some.injEq] at h
      subst h
      exact ⟨tl, rfl⟩
    · rw [if_neg hc] at h
      cases h

theorem acceptedDigitHead_none_decimalHead_none (db : UnicodeDB)
    (hF : db.Faithful) (q : List (String × String)) (k : String)
    (h : acceptedDigitHead db q k = Option.none) :
    decimalHead db q k = Option.none := by
  unfold decimalHead
  cases hv : qsVals q k with
  | nil => rfl
  | cons v tl =>
    simp only [acceptedDigitHead, hv] at h
    by_cases hc : (v != "" && v.toList.all db.isdigit) = true
    · rw [if_pos hc] at h
      cases h
    · have hdec : (v != "" && v.toList.all db.isDecimal) = false := by
        by_contra hh
        rw [Bool.not_eq_false, Bool.and_eq_true] at hh
        exact hc (Bool.and_eq_true_iff.mpr
          ⟨hh.1, List.all_eq_true.mpr
            (fun c hcm => hF.1 c (List.all_eq_true.mp hh.2 c hcm))⟩)
      have hfail : pyIntDigits db v = Option.none := by
        unfold pyIntDigits
        rw [hdec]
        simp
      simp [hfail]

theorem trailingDecimalDigits_all (db : UnicodeDB) (s : String) :
    ∀ c ∈ trailingDecimalDigits db s, db.isDecimal c = true := by
  intro c hc
  rw [trailingDecimalDigits, List.mem_reverse] at hc
  exact List.mem_takeWhile_imp hc

/-- C3 (amended): the wiara spider's override merely returns the raw first
`t`-parameter value (a string, with no post-parameter check and no path
fallback); the base spider's extractor follows the spec's priority and
fallback order and agrees with the spec whenever it returns — but the
spec's "never raises" clause fails: a query value that `str.isdigit`
accepts while containing a non-decimal digit character makes the unguarded
`int(val)` raise an uncaught `ValueError`, exhibited at `t=²` under a
character database faithful to the Unicode tables. -/
theorem thread_id_extraction_behaviour :
    (∀ u : Url, wiaraGetThreadIdFromUrl (some u) = (qsVals u.query "t").head?) ∧
    (∀ db : UnicodeDB, db.Faithful → ∀ url o,
      baseGetThreadIdFromUrl db url = .ok o → o = specThreadIdFromUrl db url) ∧
    (∃ db : UnicodeDB, db.Faithful ∧ ∃ u : Url,
      baseGetThreadIdFromUrl db (some u) = .error ()) := by
  refine ⟨?_, ?_, ?_⟩
  · intro u
    rw [wiaraGetThreadIdFromUrl]
    cases hv : qsVals u.query "t" with
    | nil => rfl
    | cons v tl =>
      have hne : v ≠ "" := qsVals_ne_empty u.query "t" v (hv ▸ List.mem_cons_self v tl)
      simp [hne]
  · intro db hF url o h
    cases url with
    | none =>
      rw [baseGetThreadIdFromUrl, Except.ok.injEq] at h
      rw [← h]
      rfl
    | some u =>
      simp only [baseGetThreadIdFromUrl] at h
      cases hat : acceptedDigitHead db u.query "t" with
      | some v =>
        simp only [hat] at h
        obtain ⟨tl, htl⟩ := acceptedDigitHead_some db u.query "t" v hat
        cases hint : pyIntDigits db v with
        | some n =>
          simp only [hint, Except.ok.injEq] at h
          subst h
          simp [specThreadIdFromUrl, decimalHead, htl, hint]
        | none =>
          simp only [hint] at h
          exact Except.noConfusion h
      | none =>
        simp only [hat] at h
        have hdt := acceptedDigitHead_none_decimalHead_none db hF u.query "t" hat
        cases hap : acceptedDigitHead db u.query "p" with
        | some v =>
          simp only [hap] at h
          obtain ⟨tl, htl⟩ := acceptedDigitHead_some db u.query "p" v hap
          cases hint : pyIntDigits db v with
          | some n =>
            simp only [hint, Except.ok.injEq] at h
            subst h
            have hp : decimalHead db u.query "p" = some ((n : Nat) : Int) := by
              simp [decimalHead, htl, hint]
            simp [specThreadIdFromUrl, hdt, hp]
          | none =>
            simp only [hint] at h
            exact Except.noConfusion h
        | none =>
          simp only [hap] at h
          have hdp := acceptedDigitHead_none_decimalHead_none db hF u.query "p" hap
          by_cases hds : (trailingDecimalDigits db u.path).isEmpty = true
          · rw [if_pos hds, Except.ok.injEq] at h
            subst h
            simp [specThreadIdFromUrl, specTrailing, hdt, hdp, hds]
          · rw [if_neg hds] at h
            have hnonempty : (String.mk (trailingDecimalDigits db u.path)) != "" := by
              rcases he : trailingDecimalDigits db u.path with _ | ⟨c, cs⟩
              · rw [he] at hds; simp at hds
              · have hne : String.mk (c :: cs) ≠ "" := fun hcontra =>
                  List.cons_ne_nil c cs (congrArg String.data hcontra)
                exact bne_iff_ne.mpr hne
            have hall : ((String.mk (trailingDecimalDigits db u.path)).toList.all
                db.isDecimal) = true :=
              List.all_eq_true.mpr (fun c hc =>
                trailingDecimalDigits_all db u.path c hc)
            have hsome : pyIntDigits db (String.mk (trailingDecimalDigits db u.path)) =
                some ((trailingDecimalDigits db u.path).foldl
                  (fun a c => a * 10 + db.digitVal c) 0) := by
              rw [pyIntDigits, if_pos (Bool.and_eq_true_iff.mpr ⟨hnonempty, hall⟩)]
              rfl
            simp only [hsome, Except.ok.injEq] at h
            subst h
            simp only [specThreadIdFromUrl, specTrailing, hdt, hdp, hds, hsome,
              Option.none_orElse, if_false]
            rfl
  · refine ⟨supTwoDB, supTwoDB_faithful,
      { path := "/viewtopic.php", query := [("t", "²")] }, ?_⟩
    rfl

/-- Closed instance of `thread_id_extraction_behaviour`: on `t=42` the base
extractor returns `.ok (some 42)` and the spec value agrees. -/
theorem thread_id_extraction_behaviour_witness :
    supTwoDB.Faithful ∧
    baseGetThreadIdFromUrl supTwoDB
        (some { path := "/viewtopic.php", query := [("t", "42")] }) = .ok (some 42) ∧
    specThreadIdFromUrl supTwoDB
        (some { path := "/viewtopic.php", query := [("t", "42")] }) = some 42 :=
  ⟨supTwoDB_faithful, rfl,
    (thread_id_extraction_behaviour.2.1 supTwoDB supTwoDB_faithful
      (some { path := "/viewtopic.php", query := [("t", "42")] }) (some 42) rfl).symm⟩

/-- C3 (counterexample to the claim as stated): on a URL carrying only the
post-identifying parameter `p=123` the extractor the wiara spider actually
runs returns none where the claim requires the integer 123, and on `t=²`
(a digit by `str.isdigit` but not a decimal digit) the base extractor
raises an uncaught `ValueError` where the claim requires it never to
raise. -/
theorem thread_id_extraction_falsified :
    wiaraGetThreadIdFromUrl
        (some { path := "/viewtopic.php", query := [("p", "123")] }) = Option.none ∧
    specThreadIdFromUrl supTwoDB
        (some { path := "/viewtopic.php", query := [("p", "123")] }) = some 123 ∧
    baseGetThreadIdFromUrl supTwoDB
        (some { path := "/viewtopic.php", query := [("t", "²")] }) = .error () :=
  ⟨rfl, by decide, rfl⟩

/-- C9: in `_extract_post_data` both the stored content and the extracted
outbound URLs are computed from the post markup only after
`strip_quotes_from_html` has removed quoted-reply blocks — link extraction
and text normalization never see the raw markup. -/
theorem post_content_derived_after_quote_stripping
    (stripQuotesFromHtml : String → String)
    (extractUrlsFromHtml : String → String → List String)
    (cleanPostContent : String → String)
    (parsePolishDate : String → Option String)
    (joinUrl : String → String) (responseUrlStr : String) (threadId : PyVal)
    (row : PostRowInput) (body : String) (item : PostItem)
    (hb : row.bodyHtml = some body)
    (h : extractPostData stripQuotesFromHtml extractUrlsFromHtml cleanPostContent
      parsePolishDate joinUrl responseUrlStr threadId row = some item) :
    item.content = .str (cleanPostContent (stripQuotesFromHtml body)) ∧
    item.content_urls =
      some (extractUrlsFromHtml (stripQuotesFromHtml body) responseUrlStr) := by
  cases ha : row.authorText with
  | none => simp [extractPostData, ha] at h
  | some a =>
    simp only [extractPostData, ha] at h
    by_cases hae : a = ""
    · simp [hae] at h
    · rw [if_neg hae, Option.some.injEq] at h
      subst h
      simp [hb]

/-- Closed instance of `post_content_derived_after_quote_stripping`. -/
theorem post_content_derived_after_quote_stripping_witness :
    ({ authorText := some "Jan", bodyHtml := some "<div>tresc</div>" } : PostRowInput).bodyHtml =
      some "<div>tresc</div>" ∧
    ∃ item,
      extractPostData (fun h => String.append "S:" h) (fun h b => [h, b])
        (fun h => String.append "C:" h) (fun _ => Option.none) (fun l => l)
        "http://base" (.int 1)
        { authorText := some "Jan", bodyHtml := some "<div>tresc</div>" } = some item ∧
      item.content = .str ((fun h => String.append "C:" h)
        ((fun h => String.append "S:" h) "<div>tresc</div>")) ∧
      item.content_urls = some ((fun h b => [h, b])
        ((fun h => String.append "S:" h) "<div>tresc</div>") "http://base") :=
  ⟨rfl, _, rfl,
    post_content_derived_after_quote_stripping
      (fun h => String.append "S:" h) (fun h b => [h, b])
      (fun h => String.append "C:" h) (fun _ => Option.none) (fun l => l)
      "http://base" (.int 1)
      { authorText := some "Jan", bodyHtml := some "<div>tresc</div>" }
      "<div>tresc</div>" _ rfl rfl⟩

theorem dedupFirstAux_mem : ∀ (l seen : List String) (a : String),
    a ∈ dedupFirstAux seen l ↔ (a ∈ l ∧ a ∉ seen) := by
  intro l
  induction l with
  | nil => intro seen a; simp [dedupFirstAux]
  | cons x xs ih =>
    intro seen a
    by_cases hx : seen.contains x
    · rw [dedupFirstAux, if_pos hx, ih]
      have hxm : x ∈ seen := by simpa using hx
      constructor
      · rintro ⟨h1, h2⟩
        exact ⟨List.mem_cons_of_mem _ h1, h2⟩
      · rintro ⟨h1, h2⟩
        rcases List.mem_cons.mp h1 with rfl | h1'
        · exact absurd hxm h2
        · exact ⟨h1', h2⟩
    · rw [dedupFirstAux, if_neg hx]
      constructor
      · intro hmem
        rcases List.mem_cons.mp hmem with rfl | h1
        · exact ⟨List.mem_cons_self _ _, by simpa using hx⟩
        · have h2 := (ih (x :: seen) a).mp h1
          exact ⟨List.mem_cons_of_mem _ h2.1,
            fun hs => h2.2 (List.mem_cons_of_mem _ hs)⟩
      · rintro ⟨h1, h2⟩
        rcases List.mem_cons.mp h1 with rfl | h1'
        · exact List.mem_cons_self _ _
        · by_cases hax : a = x
          · subst hax; exact List.mem_cons_self _ _
          · refine List.mem_cons_of_mem _ ((ih (x :: seen) a).mpr ⟨h1', ?_⟩)
            simp only [List.mem_cons, not_or]
            exact ⟨hax, h2⟩

theorem dedupFirstAux_nodup : ∀ (l seen : List String), (dedupFirstAux seen l).Nodup := by
  intro l
  induction l with
  | nil => intro seen; simp [dedupFirstAux]
  | cons x xs ih =>
    intro seen
    by_cases hx : seen.contains x
    · rw [dedupFirstAux, if_pos hx]; exact ih seen
    · rw [dedupFirstAux, if_neg hx]
      refine List.nodup_cons.mpr ⟨?_, ih (x :: seen)⟩
      intro hmem
      exact ((dedupFirstAux_mem xs (x :: seen) x).mp hmem).2 (List.mem_cons_self _ _)

theorem dedupFirstAux_sublist : ∀ (l seen : List String), (dedupFirstAux seen l).Sublist l := by
  intro l
  induction l with
  | nil => intro; simp [dedupFirstAux]
  | cons x xs ih =>
    intro seen
    by_cases hx : seen.contains x
    · rw [dedupFirstAux, if_pos hx]; exact (ih seen).cons x
    · rw [dedupFirstAux, if_neg hx]; exact (ih (x :: seen)).cons₂ x

/-- C4 (amended): the forum/section pagination helper returns a sequence
with no duplicate URL, in which every link stems from an anchor whose
`start` offset differs from the current page's offset, and which lists
exactly the candidate links in their order of first appearance (a
subsequence containing every candidate).  (The wiara thread paginator,
`extractThreadPaginationLinks`, performs neither filtering nor
deduplication: see the counterexample.) -/
theorem pagination_links_properties (page : PageModel) (viewType : String) :
    (extractForumPaginationLinks page viewType).Nodup ∧
    (∀ l ∈ extractForumPaginationLinks page viewType,
      ∃ a ∈ page.anchors, a.fullStr = l ∧
        qsFirst a.full.query "start" "0" ≠ qsFirst page.url.query "start" "0") ∧
    (extractForumPaginationLinks page viewType).Sublist (forumPaginationCandidates page viewType) ∧
    (∀ l, l ∈ extractForumPaginationLinks page viewType ↔
      l ∈ forumPaginationCandidates page viewType) := by
  have hmem : ∀ l, l ∈ extractForumPaginationLinks page viewType ↔
      l ∈ forumPaginationCandidates page viewType := by
    intro l
    rw [extractForumPaginationLinks, dedupFirst,
      dedupFirstAux_mem (forumPaginationCandidates page viewType) [] l]
    simp
  refine ⟨dedupFirstAux_nodup _ _, ?_, dedupFirstAux_sublist _ _, hmem⟩
  intro l hl
  have hc : l ∈ forumPaginationCandidates page viewType := (hmem l).mp hl
  simp only [forumPaginationCandidates] at hc
  obtain ⟨a, hafil, rfl⟩ := List.mem_map.mp hc
  have hcond := (List.mem_filter.mp hafil).2
  simp only [Bool.and_eq_true, bne_iff_ne, ne_eq] at hcond
  have hmem' := (List.mem_filter.mp hafil).1
  have hanch : a ∈ page.anchors := by
    rcases hsplit : (page.anchors.filter
        (fun a => strContains a.href viewType && strContains a.href "start=")).isEmpty with _ | _
    all_goals
      rw [hsplit] at hmem'
      simp only [if_true, if_false, Bool.false_eq_true] at hmem'
    · exact (List.mem_filter.mp hmem').1
    · exact (List.mem_filter.mp hmem').1
  exact ⟨a, hanch, rfl, hcond.2⟩

/-- C4 (counterexample to the claim as stated): the thread paginator the
wiara spider runs returns the same URL twice — and a URL whose `start`
offset equals the current page's offset — on a page whose paging cell
repeats one `viewtopic.php` link. -/
theorem pagination_links_falsified :
    extractThreadPaginationLinks
        { urlStr := "http://f/viewtopic.php?t=9"
          url := { path := "/viewtopic.php", query := [("t", "9")] }
          anchors :=
            [{ href := "viewtopic.php?t=9&start=0"
               fullStr := "http://f/viewtopic.php?t=9&start=0"
               full := { path := "/viewtopic.php", query := [("t", "9"), ("start", "0")] }
               inGensmallCell := true },
             { href := "viewtopic.php?t=9&start=0"
               fullStr := "http://f/viewtopic.php?t=9&start=0"
               full := { path := "/viewtopic.php", query := [("t", "9"), ("start", "0")] }
               inGensmallCell := true }] } =
      ["http://f/viewtopic.php?t=9&start=0", "http://f/viewtopic.php?t=9&start=0"] ∧
    ¬ (extractThreadPaginationLinks
        { urlStr := "http://f/viewtopic.php?t=9"
          url := { path := "/viewtopic.php", query := [("t", "9")] }
          anchors :=
            [{ href := "viewtopic.php?t=9&start=0"
               fullStr := "http://f/viewtopic.php?t=9&start=0"
               full := { path := "/viewtopic.php", query := [("t", "9"), ("start", "0")] }
               inGensmallCell := true },
             { href := "viewtopic.php?t=9&start=0"
               fullStr := "http://f/viewtopic.php?t=9&start=0"
               full := { path := "/viewtopic.php", query := [("t", "9"), ("start", "0")] }
               inGensmallCell := true }] }).Nodup ∧
    qsFirst ({ path := "/viewtopic.php", query := [("t", "9"), ("start", "0")] } : Url).query
        "start" "0" =
      qsFirst ({ path := "/viewtopic.php", query := [("t", "9")] } : Url).query "start" "0" := by
  refine ⟨by decide, by decide, by decide⟩

theorem saveSection_sections_mono (now : String) (item : SectionItem) (s : Pipeline) :
    ∃ tl, (saveSection now item s).1.db.sections = s.db.sections ++ tl := by
  simp only [saveSection]
  repeat' split
  all_goals first
    | exact ⟨[], (List.append_nil _).symm⟩
    | exact ⟨_, rfl⟩

theorem saveUser_users_mono (now : String) (item : UserItem) (s : Pipeline) :
    ∃ tl, (saveUser now item s).1.db.users = s.db.users ++ tl := by
  simp only [saveUser]
  repeat' split
  all_goals first
    | exact ⟨[], (List.append_nil _).symm⟩
    | exact ⟨_, rfl⟩

theorem saveThread_unfold (now : String) (item : ThreadItem) (s : Pipeline) :
    saveThread now item s =
      insertThread now item (resolveThreadSection now item s).1
        (intAffinity (resolveThreadSection now item s).2) := rfl

theorem saveThread_keeps (now : String) (item : ThreadItem) (s : Pipeline) :
    (saveThread now item s).1.db.users = s.db.users ∧
    (saveThread now item s).1.db.posts = s.db.posts ∧
    (saveThread now item s).1.db.forums = s.db.forums := by
  have h1 := resolveThreadSection_keeps now item s
  have h2 := insertThread_keeps now item (resolveThreadSection now item s).1
    (intAffinity (resolveThreadSection now item s).2)
  rw [saveThread_unfold]
  exact ⟨h2.2.1.trans h1.2.1, h2.2.2.1.trans h1.2.2.1, h2.2.2.2.trans h1.2.2.2⟩

theorem saveThread_sections_mono (now : String) (item : ThreadItem) (s : Pipeline) :
    ∃ tl, (saveThread now item s).1.db.sections = s.db.sections ++ tl := by
  obtain ⟨tl, htl⟩ := resolveThreadSection_sections_mono now item s
  have h2 := insertThread_keeps now item (resolveThreadSection now item s).1
    (intAffinity (resolveThreadSection now item s).2)
  rw [saveThread_unfold]
  exact ⟨tl, h2.1.trans htl⟩

theorem saveThread_threads_mono (now : String) (item : ThreadItem) (s : Pipeline) :
    ∃ tl, (saveThread now item s).1.db.threads = s.db.threads ++ tl := by
  obtain ⟨tl, htl⟩ := insertThread_threads_mono now item (resolveThreadSection now item s).1
    (intAffinity (resolveThreadSection now item s).2)
  have h1 := resolveThreadSection_keeps now item s
  rw [saveThread_unfold]
  exact ⟨tl, by rw [htl, h1.1]⟩

theorem resolveThreadSection_of_found (now : String) (item : ThreadItem) (s : Pipeline)
    (r0 : SectionRow)
    (hsid : item.section_id = PyVal.none)
    (hfind : s.db.sections.find? (fun r => sqlEq r.url item.section_url) = some r0) :
    resolveThreadSection now item s =
      (if item.section_url.truthy then
        ({ s with section_url_to_id :=
            cacheSet s.section_url_to_id item.section_url.pyStr r0.id }, .int r0.id)
       else (s, PyVal.none)) := by
  by_cases hsu : item.section_url.truthy = true
  · simp [resolveThreadSection, hsid, hsu, hfind, truthy_none]
  · have hsu' : item.section_url.truthy = false := by
      rwa [Bool.not_eq_true] at hsu
    simp [resolveThreadSection, hsid, hsu', truthy_none]

theorem insertThread_skip_of_conflict (now : String) (item : ThreadItem) (s1 : Pipeline)
    (sid : PyVal)
    (hconf : s1.db.threads.any (fun r => sqlEq r.url item.url) = true) :
    (insertThread now item s1 sid).1.db.threads = s1.db.threads ∧
    (insertThread now item s1 sid).1.db.sections = s1.db.sections := by
  refine ⟨?_, ?_⟩ <;> simp only [insertThread, hconf] <;> (repeat' split) <;> simp_all

theorem savePost_presence (now : String) (item : PostItem) (s : Pipeline) (a b : PyVal)
    (h : ∃ r ∈ s.db.posts, r.thread_id = a ∧ r.post_number = b) :
    ∃ r ∈ (savePost now item s).1.db.posts, r.thread_id = a ∧ r.post_number = b := by
  obtain ⟨r, hr, hra, hrb⟩ := h
  rw [savePost_posts]
  by_cases hk : (sqlEq r.thread_id (postStoredTid item) &&
      sqlEq r.post_number (postStoredNum item)) = true
  · obtain ⟨hk1, hk2⟩ := Bool.and_eq_true_iff.mp hk
    refine ⟨postNewRow now item s,
      List.mem_append_right _ (List.mem_singleton.mpr rfl), ?_, ?_⟩
    · rw [postNewRow_thread_id, ← (sqlEq_eq_true_iff.mp hk1).1, hra]
    · rw [postNewRow_post_number, ← (sqlEq_eq_true_iff.mp hk2).1, hrb]
  · have hk' : (sqlEq r.thread_id (postStoredTid item) &&
        sqlEq r.post_number (postStoredNum item)) = false := by
      rwa [Bool.not_eq_true] at hk
    exact ⟨r, List.mem_append_left _
      (List.mem_filter.mpr ⟨hr, by simp [hk']⟩), hra, hrb⟩

theorem length_filter_and_le (p q : α → Bool) (l : List α) :
    (l.filter (fun a => p a && q a)).length ≤ (l.filter p).length := by
  induction l with
  | nil => simp
  | cons x xs ih =>
    by_cases hp : p x = true <;> by_cases hq : q x = true <;>
      simp [List.filter, hp, hq] <;> omega

theorem step_mono (now : String) (it : Item) (s : Pipeline) :
    (∃ tl, (processItem now it s).1.db.sections = s.db.sections ++ tl) ∧
    (∃ tl, (processItem now it s).1.db.threads = s.db.threads ++ tl) ∧
    (∃ tl, (processItem now it s).1.db.users = s.db.users ++ tl) ∧
    (∀ a b : PyVal, (∃ r ∈ s.db.posts, r.thread_id = a ∧ r.post_number = b) →
      ∃ r ∈ (processItem now it s).1.db.posts, r.thread_id = a ∧ r.post_number = b) := by
  cases it with
  | ofForum i =>
    have hk := saveForum_keeps now i s
    exact ⟨⟨[], by simp [processItem, hk.1]⟩, ⟨[], by simp [processItem, hk.2.1]⟩,
      ⟨[], by simp [processItem, hk.2.2.1]⟩,
      fun a b h => by simpa [processItem, hk.2.2.2] using h⟩
  | ofSection i =>
    have hk := saveSection_keeps now i s
    exact ⟨saveSection_sections_mono now i s, ⟨[], by simp [processItem, hk.1]⟩,
      ⟨[], by simp [processItem, hk.2.1]⟩,
      fun a b h => by simpa [processItem, hk.2.2.1] using h⟩
  | ofThread i =>
    have hk := saveThread_keeps now i s
    exact ⟨saveThread_sections_mono now i s, saveThread_threads_mono now i s,
      ⟨[], by simp [processItem, hk.1]⟩,
      fun a b h => by simpa [processItem, hk.2.1] using h⟩
  | ofUser i =>
    have hk := saveUser_keeps now i s
    exact ⟨⟨[], by simp [processItem, hk.1]⟩, ⟨[], by simp [processItem, hk.2.1]⟩,
      saveUser_users_mono now i s,
      fun a b h => by simpa [processItem, hk.2.2.1] using h⟩
  | ofPost i =>
    have hk := savePost_keeps now i s
    exact ⟨⟨[], by simp [processItem, hk.1]⟩, ⟨[], by simp [processItem, hk.2.1]⟩,
      ⟨[], by simp [processItem, hk.2.2.1]⟩,
      fun a b h => savePost_presence now i s a b h⟩

theorem seededOne_mono (now : String) (it it' : Item) (s : Pipeline)
    (h : SeededOne it' s) : SeededOne it' (processItem now it s).1 := by
  obtain ⟨⟨tls, hs⟩, ⟨tlt, ht⟩, ⟨tlu, hu⟩, hp⟩ := step_mono now it s
  cases it' with
  | ofForum i => trivial
  | ofSection i =>
    simp only [SeededOne] at h ⊢
    intro u hu'
    obtain ⟨r, hr, hru⟩ := h u hu'
    exact ⟨r, by rw [hs]; exact List.mem_append_left _ hr, hru⟩
  | ofThread i =>
    simp only [SeededOne] at h ⊢
    obtain ⟨h1, h2⟩ := h
    refine ⟨?_, ?_⟩
    · intro su hsu hsu'
      obtain ⟨r, hr, hru⟩ := h1 su hsu hsu'
      exact ⟨r, by rw [hs]; exact List.mem_append_left _ hr, hru⟩
    · intro htr u hu'
      obtain ⟨r, hr, hru⟩ := h2 htr u hu'
      exact ⟨r, by rw [ht]; exact List.mem_append_left _ hr, hru⟩
  | ofUser i =>
    simp only [SeededOne] at h ⊢
    intro nm hnm
    obtain ⟨r, hr, hru⟩ := h nm hnm
    exact ⟨r, by rw [hu]; exact List.mem_append_left _ hr, hru⟩
  | ofPost i =>
    simp only [SeededOne] at h ⊢
    exact hp _ _ h

theorem step_postKeysUnique (now : String) (it : Item) (s : Pipeline)
    (h : PostKeysUnique s) : PostKeysUnique (processItem now it s).1 := by
  cases it with
  | ofForum i =>
    intro t n
    rw [show (processItem now (.ofForum i) s).1.db.posts = s.db.posts from
      (saveForum_keeps now i s).2.2.2]
    exact h t n
  | ofSection i =>
    intro t n
    rw [show (processItem now (.ofSection i) s).1.db.posts = s.db.posts from
      (saveSection_keeps now i s).2.2.1]
    exact h t n
  | ofThread i =>
    intro t n
    rw [show (processItem now (.ofThread i) s).1.db.posts = s.db.posts from
      (saveThread_keeps now i s).2.1]
    exact h t n
  | ofUser i =>
    intro t n
    rw [show (processItem now (.ofUser i) s).1.db.posts = s.db.posts from
      (saveUser_keeps now i s).2.2.1]
    exact h t n
  | ofPost i =>
    intro t n
    rw [show (processItem now (.ofPost i) s).1.db.posts =
        (s.db.posts.filter (fun r => !(sqlEq r.thread_id (postStoredTid i) &&
          sqlEq r.post_number (postStoredNum i)))) ++ [postNewRow now i s] from
      savePost_posts now i s]
    rw [List.filter_append]
    by_cases hks : (sqlEq (postNewRow now i s).thread_id t &&
        sqlEq (postNewRow now i s).post_number n) = true
    · obtain ⟨hk1, hk2⟩ := Bool.and_eq_true_iff.mp hks
      rw [postNewRow_thread_id] at hk1
      rw [postNewRow_post_number] at hk2
      have et := (sqlEq_eq_true_iff.mp hk1).1
      have en := (sqlEq_eq_true_iff.mp hk2).1
      have hempty : ((s.db.posts.filter (fun r => !(sqlEq r.thread_id (postStoredTid i) &&
          sqlEq r.post_number (postStoredNum i)))).filter
          (fun r => sqlEq r.thread_id t && sqlEq r.post_number n)) = [] := by
        apply List.filter_eq_nil_iff.mpr
        intro r hr
        have hr2 := List.mem_filter.mp hr
        intro hmatch
        obtain ⟨hm1, hm2⟩ := Bool.and_eq_true_iff.mp hmatch
        have c1 : sqlEq r.thread_id (postStoredTid i) = true := by rw [et]; exact hm1
        have c2 : sqlEq r.post_number (postStoredNum i) = true := by rw [en]; exact hm2
        have := hr2.2
        rw [c1, c2] at this
        simp at this
      rw [hempty]
      simpa using List.length_filter_le _ [postNewRow now i s]
    · have hzero : (List.filter (fun r => sqlEq r.thread_id t && sqlEq r.post_number n)
          [postNewRow now i s]) = [] := by
        rw [Bool.not_eq_true] at hks
        simp [List.filter, hks]
      rw [hzero, List.append_nil]
      calc ((s.db.posts.filter (fun r => !(sqlEq r.thread_id (postStoredTid i) &&
            sqlEq r.post_number (postStoredNum i)))).filter
            (fun r => sqlEq r.thread_id t && sqlEq r.post_number n)).length
          ≤ (s.db.posts.filter (fun r => sqlEq r.thread_id t &&
              sqlEq r.post_number n)).length := by
            rw [List.filter_filter]
            exact length_filter_and_le _ _ _
        _ ≤ 1 := h t n

theorem insertThread_thread_presence (now : String) (item : ThreadItem) (s1 : Pipeline)
    (m : Int) (u : String)
    (hu : item.url = .str u)
    (hfk : s1.db.sections.any (fun r => PyVal.int m == PyVal.int r.id) = true) :
    ∃ r ∈ (insertThread now item s1 (PyVal.int m)).1.db.threads, r.url = .str u := by
  by_cases hconf : s1.db.threads.any (fun r => sqlEq r.url item.url) = true
  · obtain ⟨r, hr, hrp⟩ := List.any_eq_true.mp hconf
    rw [hu] at hrp
    obtain ⟨tl, htl⟩ := insertThread_threads_mono now item s1 (PyVal.int m)
    exact ⟨r, htl ▸ List.mem_append_left _ hr, (sqlEq_eq_true_iff.mp hrp).1⟩
  · have hconf' : s1.db.threads.any (fun r => sqlEq r.url item.url) = false := by
      rwa [Bool.not_eq_true] at hconf
    have hins := insertThread_insert now item s1 (PyVal.int m) m rfl hconf' hfk
    rw [hins.1]
    exact ⟨_, List.mem_append_right _ (List.mem_singleton.mpr rfl), hu⟩

theorem step_seeds (now : String) (it : Item) (s : Pipeline) (hwf : ItemWF it) :
    SeededOne it (processItem now it s).1 := by
  cases it with
  | ofForum i => trivial
  | ofSection i =>
    obtain ⟨u, hu⟩ := hwf
    simp only [SeededOne]
    intro u' hu'
    obtain rfl : u' = u := PyVal.str.inj (hu'.symm.trans hu)
    by_cases hc : (s.db.sections.any fun r => sqlEq r.url i.url) = true
    · rw [show (processItem now (.ofSection i) s).1.db.sections = s.db.sections from
        saveSection_sections_of_conflict now i s hc]
      obtain ⟨r, hr, hrp⟩ := List.any_eq_true.mp hc
      rw [hu] at hrp
      exact ⟨r, hr, (sqlEq_eq_true_iff.mp hrp).1⟩
    · have hc' : (s.db.sections.any fun r => sqlEq r.url i.url) = false := by
        rwa [Bool.not_eq_true] at hc
      obtain ⟨fid, hf⟩ := saveSection_sections_of_fresh now i s hc'
      rw [show (processItem now (.ofSection i) s).1.db.sections = _ from hf]
      exact ⟨_, List.mem_append_right _ (List.mem_singleton.mpr rfl), hu⟩
  | ofUser i =>
    obtain ⟨nm, hnm⟩ := hwf
    simp only [SeededOne]
    intro nm' hnm'
    obtain rfl : nm' = nm := PyVal.str.inj (hnm'.symm.trans hnm)
    by_cases hc : (s.db.users.any fun r => sqlEq r.username i.username) = true
    · rw [show (processItem now (.ofUser i) s).1.db.users = s.db.users from
        saveUser_users_of_conflict now i s hc]
      obtain ⟨r, hr, hrp⟩ := List.any_eq_true.mp hc
      rw [hnm] at hrp
      exact ⟨r, hr, (sqlEq_eq_true_iff.mp hrp).1⟩
    · have hc' : (s.db.users.any fun r => sqlEq r.username i.username) = false := by
        rwa [Bool.not_eq_true] at hc
      rw [show (processItem now (.ofUser i) s).1.db.users = _ from
        saveUser_users_of_fresh now i s hc']
      exact ⟨_, List.mem_append_right _ (List.mem_singleton.mpr rfl), hnm⟩
  | ofPost i =>
    simp only [SeededOne]
    rw [show (processItem now (.ofPost i) s).1.db.posts = _ from savePost_posts now i s]
    exact ⟨postNewRow now i s, List.mem_append_right _ (List.mem_singleton.mpr rfl),
      postNewRow_thread_id now i s, postNewRow_post_number now i s⟩
  | ofThread i =>
    obtain ⟨⟨u, hu⟩, hsid, hsu⟩ := hwf
    simp only [SeededOne]
    rcases hsu with hnone | ⟨su, hstr⟩
    · constructor
      · intro su h
        rw [hnone] at h
        cases h
      · intro htr
        rw [hnone, truthy_none] at htr
        cases htr
    · by_cases hemp : su = ""
      · subst hemp
        constructor
        · intro su' h hne
          exact absurd (PyVal.str.inj (h.symm.trans hstr)) hne
        · intro htr
          rw [hstr, truthy_str] at htr
          simp at htr
      · have htr : i.section_url.truthy = true := by
          rw [hstr, truthy_str]
          simpa using hemp
        rcases hfind : s.db.sections.find? (fun r => sqlEq r.url i.section_url)
            with _ | r0
        · -- cache miss: placeholder section created, thread inserted against it
          have hfind' : s.db.sections.find? (fun r => sqlEq r.url (.str su)) =
              Option.none := by rw [← hstr]; exact hfind
          have hres := resolveThreadSection_of_miss now i s su hsid hstr hemp hfind'
          set ph : SectionRow :=
            { id := s.db.sectionsSeq + 1, forum_id := .none,
              title := i.section_title, url := .str su,
              created_at := pyOr i.created_at (.str now),
              updated_at := pyOr i.updated_at (.str now) } with hph
          set s1 : Pipeline :=
            { s with
              db := { s.db with
                sections := s.db.sections ++ [ph]
                sectionsSeq := s.db.sectionsSeq + 1
                lastInsertRowid := s.db.sectionsSeq + 1 }
              section_url_to_id :=
                cacheSet s.section_url_to_id su (s.db.sectionsSeq + 1) } with hs1
          have htotal : saveThread now i s =
              insertThread now i s1 (PyVal.int (s.db.sectionsSeq + 1)) := by
            rw [saveThread_unfold, hres]
            rfl
          constructor
          · intro su' h hne
            obtain rfl : su = su' := (PyVal.str.inj (h.symm.trans hstr)).symm
            have hsecs : (processItem now (.ofThread i) s).1.db.sections =
                s.db.sections ++ [ph] := by
              show (saveThread now i s).1.db.sections = _
              rw [htotal]
              exact (insertThread_keeps now i s1 _).1
            rw [hsecs]
            exact ⟨ph, List.mem_append_right _ (List.mem_singleton.mpr rfl), rfl⟩
          · intro _ u' hu'
            obtain rfl : u = u' := (PyVal.str.inj (hu'.symm.trans hu)).symm
            have hfk : s1.db.sections.any
                (fun r => PyVal.int (s.db.sectionsSeq + 1) == PyVal.int r.id) = true := by
              show ((s.db.sections ++ [ph]).any
                (fun r => PyVal.int (s.db.sectionsSeq + 1) == PyVal.int r.id)) = true
              rw [List.any_append]
              refine Bool.or_eq_true_iff.mpr (Or.inr ?_)
              simp [hph]
            have hpres := insertThread_thread_presence now i s1
              _ u hu hfk
            show ∃ r ∈ (saveThread now i s).1.db.threads, r.url = .str u
            rw [htotal]
            exact hpres
        · -- cache hit: the found section backs the thread's foreign key
          have hres0 := resolveThreadSection_of_found now i s r0 hsid hfind
          rw [if_pos htr] at hres0
          have hr0mem : r0 ∈ s.db.sections := List.mem_of_find?_eq_some hfind
          have hr0url : r0.url = .str su := by
            have hp := List.find?_some hfind
            rw [hstr] at hp
            exact (sqlEq_eq_true_iff.mp hp).1
          set s1 : Pipeline :=
            { s with section_url_to_id :=
                cacheSet s.section_url_to_id i.section_url.pyStr r0.id } with hs1
          have htotal : saveThread now i s =
              insertThread now i s1 (PyVal.int r0.id) := by
            rw [saveThread_unfold, hres0]
            rfl
          constructor
          · intro su' h hne
            obtain rfl : su = su' := (PyVal.str.inj (h.symm.trans hstr)).symm
            have hsecs : (processItem now (.ofThread i) s).1.db.sections =
                s.db.sections := by
              show (saveThread now i s).1.db.sections = _
              rw [htotal]
              exact (insertThread_keeps now i s1 _).1
            rw [hsecs]
            exact ⟨r0, hr0mem, hr0url⟩
          · intro _ u' hu'
            obtain rfl : u = u' := (PyVal.str.inj (hu'.symm.trans hu)).symm
            have hfk : s1.db.sections.any
                (fun r => PyVal.int r0.id == PyVal.int r.id) = true :=
              List.any_eq_true.mpr ⟨r0, hr0mem, by simp⟩
            have hpres := insertThread_thread_presence now i s1
              _ u hu hfk
            show ∃ r ∈ (saveThread now i s).1.db.threads, r.url = .str u
            rw [htotal]
            exact hpres

theorem step_counts (now : String) (it : Item) (s : Pipeline)
    (hwf : ItemWF it) (hseed : SeededOne it s) (hpku : PostKeysUnique s) :
    (processItem now it s).1.db.sections.length = s.db.sections.length ∧
    (processItem now it s).1.db.threads.length = s.db.threads.length ∧
    (processItem now it s).1.db.users.length = s.db.users.length ∧
    (processItem now it s).1.db.posts.length = s.db.posts.length ∧
    (processItem now it s).1.db.forums.length =
      s.db.forums.length + (if isForumItem it then 1 else 0) := by
  cases it with
  | ofForum i =>
    obtain ⟨nm, hnm⟩ := hwf
    have hf := saveForum_forums_of_named now i s (by rw [hnm]; simp)
    have hk := saveForum_keeps now i s
    refine ⟨congrArg List.length hk.1, congrArg List.length hk.2.1,
      congrArg List.length hk.2.2.1, congrArg List.length hk.2.2.2, ?_⟩
    rw [show (processItem now (.ofForum i) s).1.db.forums = _ from hf]
    simp [isForumItem]
  | ofSection i =>
    obtain ⟨u, hu⟩ := hwf
    simp only [SeededOne] at hseed
    have hc : (s.db.sections.any fun r => sqlEq r.url i.url) = true := by
      obtain ⟨r, hr, hru⟩ := hseed u hu
      exact List.any_eq_true.mpr ⟨r, hr, by rw [hu, hru]; exact sqlEq_self (by simp)⟩
    have ht := saveSection_sections_of_conflict now i s hc
    have hk := saveSection_keeps now i s
    refine ⟨congrArg List.length ht, congrArg List.length hk.1,
      congrArg List.length hk.2.1, congrArg List.length hk.2.2.1, ?_⟩
    rw [show (processItem now (.ofSection i) s).1.db.forums = _ from hk.2.2.2]
    simp [isForumItem]
  | ofUser i =>
    obtain ⟨nm, hnm⟩ := hwf
    simp only [SeededOne] at hseed
    have hc : (s.db.users.any fun r => sqlEq r.username i.username) = true := by
      obtain ⟨r, hr, hru⟩ := hseed nm hnm
      exact List.any_eq_true.mpr ⟨r, hr, by rw [hnm, hru]; exact sqlEq_self (by simp)⟩
    have ht := saveUser_users_of_conflict now i s hc
    have hk := saveUser_keeps now i s
    refine ⟨congrArg List.length hk.1, congrArg List.length hk.2.1,
      congrArg List.length ht, congrArg List.length hk.2.2.1, ?_⟩
    rw [show (processItem now (.ofUser i) s).1.db.forums = _ from hk.2.2.2]
    simp [isForumItem]
  | ofThread i =>
    obtain ⟨⟨u, hu⟩, hsid, hsu⟩ := hwf
    simp only [SeededOne] at hseed
    obtain ⟨hseed1, hseed2⟩ := hseed
    have hk := saveThread_keeps now i s
    by_cases htr : i.section_url.truthy = true
    · rcases hsu with hnone | ⟨su, hstr⟩
      · rw [hnone, truthy_none] at htr
        cases htr
      · have hemp : su ≠ "" := by
          intro h
          rw [hstr, h, truthy_str] at htr
          simp at htr
        obtain ⟨r0, hr0m, hr0u⟩ := hseed1 su hstr hemp
        have hfindS : (s.db.sections.find? (fun r => sqlEq r.url i.section_url)).isSome := by
          rcases hfe : s.db.sections.find? (fun r => sqlEq r.url i.section_url)
              with _ | r1
          · have := List.find?_eq_none.mp hfe r0 hr0m
            rw [hstr, hr0u] at this
            exact absurd (sqlEq_self (by simp : PyVal.str su ≠ PyVal.none)) (by simpa using this)
          · rw [hfe]; rfl
        obtain ⟨r1, hfind⟩ := Option.isSome_iff_exists.mp hfindS
        have hres0 := resolveThreadSection_of_found now i s r1 hsid hfind
        rw [if_pos htr] at hres0
        set s1 : Pipeline :=
          { s with section_url_to_id :=
              cacheSet s.section_url_to_id i.section_url.pyStr r1.id } with hs1
        have htotal : saveThread now i s = insertThread now i s1 (PyVal.int r1.id) := by
          rw [saveThread_unfold, hres0]
          rfl
        have hconf : s1.db.threads.any (fun r => sqlEq r.url i.url) = true := by
          obtain ⟨r, hr, hru⟩ := hseed2 htr u hu
          exact List.any_eq_true.mpr ⟨r, hr, by rw [hu, hru]; exact sqlEq_self (by simp)⟩
        have hskip := insertThread_skip_of_conflict now i s1 (PyVal.int r1.id) hconf
        refine ⟨?_, ?_, congrArg List.length hk.1, congrArg List.length hk.2.1, ?_⟩
        · show (saveThread now i s).1.db.sections.length = _
          rw [htotal]
          exact congrArg List.length hskip.2
        · show (saveThread now i s).1.db.threads.length = _
          rw [htotal]
          exact congrArg List.length hskip.1
        · rw [show (processItem now (.ofThread i) s).1.db.forums = _ from hk.2.2]
          simp [isForumItem]
    · have htr' : i.section_url.truthy = false := by rwa [Bool.not_eq_true] at htr
      have hres := resolveThreadSection_of_nosection now i s hsid htr'
      have hnone : intAffinity i.section_id = PyVal.none := by rw [hsid]; rfl
      have htotal : saveThread now i s = insertThread now i s PyVal.none := by
        rw [saveThread_unfold, hres, hnone]
      have hskip := insertThread_skip_of_none now i s
      refine ⟨?_, ?_, congrArg List.length hk.1, congrArg List.length hk.2.1, ?_⟩
      · show (saveThread now i s).1.db.sections.length = _
        rw [htotal]
        exact congrArg List.length hskip.2.1
      · show (saveThread now i s).1.db.threads.length = _
        rw [htotal]
        exact congrArg List.length hskip.1
      · rw [show (processItem now (.ofThread i) s).1.db.forums = _ from hk.2.2]
        simp [isForumItem]
  | ofPost i =>
    obtain ⟨htid, k, hnum⟩ := hwf
    simp only [SeededOne] at hseed
    obtain ⟨r, hr, hrt, hrn⟩ := hseed
    have hkeeps := savePost_keeps now i s
    refine ⟨congrArg List.length hkeeps.1, congrArg List.length hkeeps.2.1,
      congrArg List.length hkeeps.2.2.1, ?_, ?_⟩
    · rw [show (processItem now (.ofPost i) s).1.db.posts = _ from savePost_posts now i s]
      rw [List.length_append]
      have hsum := length_filter_add_not
        (fun r => sqlEq r.thread_id (postStoredTid i) &&
          sqlEq r.post_number (postStoredNum i)) s.db.posts
      have h1 : (s.db.posts.filter
          (fun r => sqlEq r.thread_id (postStoredTid i) &&
            sqlEq r.post_number (postStoredNum i))).length = 1 := by
        have hle := hpku (postStoredTid i) (postStoredNum i)
        have hnn : postStoredNum i ≠ PyVal.none := by
          rw [postStoredNum, hnum]
          simp [intAffinity]
        have hmem : r ∈ s.db.posts.filter
            (fun r => sqlEq r.thread_id (postStoredTid i) &&
              sqlEq r.post_number (postStoredNum i)) := by
          refine List.mem_filter.mpr ⟨hr, ?_⟩
          rw [hrt, hrn]
          simp [sqlEq_self (postStoredTid_ne_none htid), sqlEq_self hnn]
        have hpos := List.length_pos.mpr (List.ne_nil_of_mem hmem)
        omega
      simp only [List.length_singleton]
      omega
    · rw [show (processItem now (.ofPost i) s).1.db.forums = _ from hkeeps.2.2.2]
      simp [isForumItem]

theorem runItems_cons (now : String) (it : Item) (its : List Item) (s : Pipeline) :
    runItems now (it :: its) s = runItems now its (processItem now it s).1 := rfl

theorem runItems_seeded_mono (now : String) (items : List Item) (it' : Item) :
    ∀ s, SeededOne it' s → SeededOne it' (runItems now items s) := by
  induction items with
  | nil => intro s h; exact h
  | cons x xs ih =>
    intro s h
    rw [runItems_cons]
    exact ih _ (seededOne_mono now x it' s h)

theorem runItems_postKeysUnique (now : String) (items : List Item) :
    ∀ s, PostKeysUnique s → PostKeysUnique (runItems now items s) := by
  induction items with
  | nil => intro s h; exact h
  | cons x xs ih =>
    intro s h
    rw [runItems_cons]
    exact ih _ (step_postKeysUnique now x s h)

theorem runItems_seeds (now : String) : ∀ (items : List Item) (s : Pipeline),
    (∀ it ∈ items, ItemWF it) → ∀ it ∈ items, SeededOne it (runItems now items s) := by
  intro items
  induction items with
  | nil =>
    intro s _ it h
    cases h
  | cons x xs ih =>
    intro s hwf it hit
    rw [runItems_cons]
    rcases List.mem_cons.mp hit with rfl | hmem
    · exact runItems_seeded_mono now xs it _ (step_seeds now it s (hwf it hit))
    · exact ih _ (fun it' h' => hwf it' (List.mem_cons_of_mem _ h')) it hmem

theorem emptyPipeline_postKeysUnique : PostKeysUnique ({} : Pipeline) := by
  intro t n
  simp [PostKeysUnique, List.filter]

theorem runItems_counts (now : String) : ∀ (items : List Item) (s : Pipeline),
    (∀ it ∈ items, ItemWF it) → (∀ it ∈ items, SeededOne it s) → PostKeysUnique s →
    (runItems now items s).db.sections.length = s.db.sections.length ∧
    (runItems now items s).db.threads.length = s.db.threads.length ∧
    (runItems now items s).db.users.length = s.db.users.length ∧
    (runItems now items s).db.posts.length = s.db.posts.length ∧
    (runItems now items s).db.forums.length =
      s.db.forums.length + (items.filter isForumItem).length := by
  intro items
  induction items with
  | nil =>
    intro s _ _ _
    simp [runItems]
  | cons x xs ih =>
    intro s hwf hseed hpku
    rw [runItems_cons]
    have hstep := step_counts now x s (hwf x (List.mem_cons_self x xs))
      (hseed x (List.mem_cons_self x xs)) hpku
    have hrest := ih (processItem now x s).1
      (fun it h => hwf it (List.mem_cons_of_mem _ h))
      (fun it h => seededOne_mono now x it s (hseed it (List.mem_cons_of_mem _ h)))
      (step_postKeysUnique now x s hpku)
    refine ⟨hrest.1.trans hstep.1, hrest.2.1.trans hstep.2.1,
      hrest.2.2.1.trans hstep.2.2.1, hrest.2.2.2.1.trans hstep.2.2.2.1, ?_⟩
    rw [hrest.2.2.2.2, hstep.2.2.2.2]
    by_cases hx : isForumItem x = true
    · simp only [List.filter_cons, hx, if_true, List.length_cons]
      omega
    · have hx' : isForumItem x = false := by rwa [Bool.not_eq_true] at hx
      simp only [List.filter_cons, hx', Bool.false_eq_true, if_false]
      omega

/-- C5 (amended): re-running the reconciler over the same well-formed parsed
item stream leaves the sections, threads, users and posts row counts
unchanged (posts are replaced in place), while the `forums` table grows by
one extra row per forum item, because `_save_forum` inserts
unconditionally. -/
theorem pipeline_rerun_row_counts
    (now1 now2 : String) (items : List Item)
    (hwf : ∀ it ∈ items, ItemWF it) :
    (runItems now2 items (runItems now1 items {})).db.sections.length =
      (runItems now1 items {}).db.sections.length ∧
    (runItems now2 items (runItems now1 items {})).db.threads.length =
      (runItems now1 items {}).db.threads.length ∧
    (runItems now2 items (runItems now1 items {})).db.users.length =
      (runItems now1 items {}).db.users.length ∧
    (runItems now2 items (runItems now1 items {})).db.posts.length =
      (runItems now1 items {}).db.posts.length ∧
    (runItems now2 items (runItems now1 items {})).db.forums.length =
      (runItems now1 items {}).db.forums.length +
        (items.filter isForumItem).length :=
  runItems_counts now2 items (runItems now1 items {}) hwf
    (runItems_seeds now1 items {} hwf)
    (runItems_postKeysUnique now1 items {} emptyPipeline_postKeysUnique)

/-- Closed instance of `pipeline_rerun_row_counts` on a four-entity stream. -/
theorem pipeline_rerun_row_counts_witness :
    (runItems "T2"
        [Item.ofForum { spider_name := .str "wiara", title := .str "wiara.pl" },
         Item.ofSection { forum_id := .str "wiara", title := .str "S",
                          url := .str "http://f/viewforum.php?f=1" },
         Item.ofUser { username := .str "Jan" },
         Item.ofPost { thread_id := .int 5, post_number := .int 1,
                       content := .str "x", username := .str "Jan" }]
        (runItems "T1"
          [Item.ofForum { spider_name := .str "wiara", title := .str "wiara.pl" },
           Item.ofSection { forum_id := .str "wiara", title := .str "S",
                            url := .str "http://f/viewforum.php?f=1" },
           Item.ofUser { username := .str "Jan" },
           Item.ofPost { thread_id := .int 5, post_number := .int 1,
                         content := .str "x", username := .str "Jan" }]
          {})).db.posts.length =
      (runItems "T1"
        [Item.ofForum { spider_name := .str "wiara", title := .str "wiara.pl" },
         Item.ofSection { forum_id := .str "wiara", title := .str "S",
                          url := .str "http://f/viewforum.php?f=1" },
         Item.ofUser { username := .str "Jan" },
         Item.ofPost { thread_id := .int 5, post_number := .int 1,
                       content := .str "x", username := .str "Jan" }]
        {}).db.posts.length :=
  (pipeline_rerun_row_counts "T1" "T2"
    [Item.ofForum { spider_name := .str "wiara", title := .str "wiara.pl" },
     Item.ofSection { forum_id := .str "wiara", title := .str "S",
                      url := .str "http://f/viewforum.php?f=1" },
     Item.ofUser { username := .str "Jan" },
     Item.ofPost { thread_id := .int 5, post_number := .int 1,
                   content := .str "x", username := .str "Jan" }]
    (by
      intro it hit
      simp only [List.mem_cons, List.not_mem_nil, or_false] at hit
      rcases hit with rfl | rfl | rfl | rfl
      · exact ⟨"wiara", rfl⟩
      · exact ⟨"http://f/viewforum.php?f=1", rfl⟩
      · exact ⟨"Jan", rfl⟩
      · exact ⟨by decide, 1, rfl⟩)).2.2.2.1

/-- C5 (counterexample to the claim as stated): running the pipeline twice
on an input holding just the forum entity doubles the `forums` row count —
the forum insert is unconditional, so the stored row counts are not
identical across reruns. -/
theorem pipeline_rerun_falsified :
    (runItems "T1" [Item.ofForum { spider_name := .str "wiara", title := .str "wiara.pl" }]
      {}).db.forums.length = 1 ∧
    (runItems "T2" [Item.ofForum { spider_name := .str "wiara", title := .str "wiara.pl" }]
      (runItems "T1"
        [Item.ofForum { spider_name := .str "wiara", title := .str "wiara.pl" }]
        {})).db.forums.length = 2 :=
  ⟨rfl, rfl⟩

end ForumsScraper
